import Mathlib

/-!
Shallow embedding of the core of the `sergz72/cache` RESP cache server.

The embedding covers the shard engine (`src/common_maps.rs`), tagged values
(`src/value.rs`), errors (`src/errors.rs`), the RESP parser
(`src/resp_parser.rs`), the RESP encoder (`src/resp_encoder.rs`), the
dispatcher-level command handlers (`src/resp_commands.rs`,
`src/worker_data.rs`) and the hash builders (`src/hash_builders.rs`).

Conventions:
- Byte strings (`Vec<u8>`) are `List Nat`, each element a byte value.
- Rust `HashMap` is an association list whose operations replace in place;
  `BTreeMap` is an association list kept sorted by key, so that iteration
  order and `first_key_value` match the ordered map.
- Clock reads (`SystemTime::now().duration_since(start_time)` in
  milliseconds) are an explicit `now : Nat` argument.
- A `.unwrap()` on a missing bucket is a panic; panicking paths surface as
  `Option.none` or as the `panic` constructor of an outcome type.
- `usize` arithmetic uses `Nat`; the subtractions performed by the source
  never underflow on the states the theorems quantify over, so no wrap
  modelling is needed there.  The `djb2`/`sdbm` hash accumulators do
  overflow `usize` by design, so those fold steps reduce `% 2^64`.
-/

namespace Cache

abbrev Bytes := List Nat

/-- ASCII bytes of a string literal, for RESP payload constants. -/
def strBytes (s : String) : Bytes := s.data.map Char.toNat

/-! ### `src/value.rs` -/

/-- `ValueHolder` from `src/value.rs`: the tagged union of value kinds. -/
inductive ValueHolder where
  | intValue (i : Int)
  | stringValue (s : Bytes)
  | hashMapValue (m : List (Bytes × Bytes))
  | hashSetValue (s : List Bytes)
  deriving DecidableEq

/-- `calculate_map_size` from `src/value.rs`. -/
def calculate_map_size (m : List (Bytes × Bytes)) : Nat :=
  m.foldl (fun s kv => s + kv.1.length + kv.2.length) 0

/-- `calculate_set_size` from `src/value.rs`. -/
def calculate_set_size (s : List Bytes) : Nat :=
  (s.map List.length).sum

/-- `ValueHolder::size` from `src/value.rs`. -/
def ValueHolder.size : ValueHolder → Nat
  | .intValue _ => 8
  | .stringValue v => v.length
  | .hashMapValue m => calculate_map_size m
  | .hashSetValue s => calculate_set_size s

/-- `Value` from `src/value.rs`.  `last_access_time` is stored behind an
atomic in the source; sequential semantics makes it a plain field. -/
structure Value where
  value : ValueHolder
  lastAccessTime : Nat
  expiresAt : Option Nat
  deriving DecidableEq

/-- `Value::new` as used by `CommonMaps::set`: wraps a `ValueHolder`,
computing `expires_at = created_at + e` from an optional relative expiry. -/
def Value.new (value : ValueHolder) (createdAt : Nat) (expiration : Option Nat) : Value :=
  { value := value, lastAccessTime := createdAt,
    expiresAt := expiration.map (fun e => createdAt + e) }

/-- `Value::new_hash` from `src/value.rs`: hash values carry no expiry. -/
def Value.new_hash (m : List (Bytes × Bytes)) (createdAt : Nat) : Value :=
  { value := .hashMapValue m, lastAccessTime := createdAt, expiresAt := none }

/-- `Value::is_expired` from `src/value.rs`: true when an expiry is set and
`now >= expires_at`. -/
def Value.is_expired (v : Value) (now : Nat) : Bool :=
  match v.expiresAt with
  | some e => decide (e ≤ now)
  | none => false

/-- `Value::size` from `src/value.rs`. -/
def Value.size (v : Value) : Nat := v.value.size

/-- `Value::get_value` from `src/value.rs`. -/
def Value.get_value : Value → Option Bytes
  | { value := .stringValue v, .. } => some v
  | _ => none

/-- `Value::get_ivalue` from `src/value.rs`. -/
def Value.get_ivalue : Value → Option Int
  | { value := .intValue i, .. } => some i
  | _ => none

/-- `Value::get_hvalue` from `src/value.rs`. -/
def Value.get_hvalue : Value → Option (List (Bytes × Bytes))
  | { value := .hashMapValue m, .. } => some m
  | _ => none

/-! ### `src/errors.rs` -/

/-- The two shard-level error kinds built in `src/errors.rs`. -/
inductive CacheError where
  | outOfMemory
  | wrongType
  deriving DecidableEq

/-- The RESP payload carried by each error (`build_out_of_memory_error`,
`build_wrong_data_type_error`); command handlers append `e.to_string()`. -/
def errorBytes : CacheError → Bytes
  | .outOfMemory => strBytes "-out of memory\r\n"
  | .wrongType => strBytes "-Operation against a key holding the wrong kind of value\r\n"

/-! ### Association-list operations mirroring `HashMap` -/

/-- `HashMap::insert` on an association list: replace in place, else append.
Returns the updated map and `true` when the key was previously absent. -/
def mapInsert (k v : Bytes) : List (Bytes × Bytes) → List (Bytes × Bytes) × Bool
  | [] => ([(k, v)], true)
  | (k', v') :: rest =>
    if k' = k then ((k', v) :: rest, false)
    else
      let r := mapInsert k v rest
      ((k', v') :: r.1, r.2)

/-- `HashMap::remove` on an association list: drop the first matching entry.
Returns the updated map and `true` when an entry was removed. -/
def mapRemoveField (k : Bytes) : List (Bytes × Bytes) → List (Bytes × Bytes) × Bool
  | [] => ([], false)
  | (k', v') :: rest =>
    if k' = k then (rest, true)
    else
      let r := mapRemoveField k rest
      ((k', v') :: r.1, r.2)

/-- `Value::merge` from `src/value.rs`: insert every field of `source`,
counting the fresh ones; fails with `WrongType` on a non-hash variant. -/
def Value.merge (val : Value) (source : List (Bytes × Bytes)) :
    Except CacheError (Value × Int) :=
  match val.value with
  | .hashMapValue hv =>
    let r := source.foldl
      (fun (p : List (Bytes × Bytes) × Int) kv =>
        let q := mapInsert kv.1 kv.2 p.1
        (q.1, if q.2 then p.2 + 1 else p.2))
      (hv, 0)
    .ok ({ val with value := .hashMapValue r.1 }, r.2)
  | _ => .error .wrongType

/-- `Value::delete` from `src/value.rs`: remove the listed fields, returning
the deleted count and the remaining field count; `WrongType` on non-hash. -/
def Value.delete (val : Value) (source : List Bytes) :
    Except CacheError (Value × Int × Nat) :=
  match val.value with
  | .hashMapValue hv =>
    let r := source.foldl
      (fun (p : List (Bytes × Bytes) × Int) k =>
        let q := mapRemoveField k p.1
        (q.1, if q.2 then p.2 + 1 else p.2))
      (hv, 0)
    .ok ({ val with value := .hashMapValue r.1 }, r.2, r.1.length)
  | _ => .error .wrongType

/-! ### Primary map (`HashMap<Vec<u8>, Value>`) as an association list -/

/-- `HashMap::get` on the primary map. -/
def mapGet (m : List (Bytes × Value)) (k : Bytes) : Option Value :=
  match m with
  | [] => none
  | (k', v) :: rest => if k' = k then some v else mapGet rest k

/-- `HashMap::insert` on the primary map: replace in place, returning the
previous value when present. -/
def mapInsertEntry (k : Bytes) (v : Value) :
    List (Bytes × Value) → List (Bytes × Value) × Option Value
  | [] => ([(k, v)], none)
  | (k', v') :: rest =>
    if k' = k then ((k', v) :: rest, some v')
    else
      let r := mapInsertEntry k v rest
      ((k', v') :: r.1, r.2)

/-- `HashMap::remove` on the primary map. -/
def mapRemoveEntry (k : Bytes) :
    List (Bytes × Value) → Option (Value × List (Bytes × Value))
  | [] => none
  | (k', v') :: rest =>
    if k' = k then some (v', rest)
    else (mapRemoveEntry k rest).map (fun r => (r.1, (k', v') :: r.2))

/-! ### Ordered buckets (`BTreeMap<u64, HashSet<Vec<u8>>>`) -/

/-- Bucket lists: association lists `time ↦ key set`, kept sorted by time so
that list order is `BTreeMap` iteration order and the head is
`first_key_value`. -/
abbrev BucketMap := List (Nat × List Bytes)

/-- `BTreeMap::get` (first entry with the given time). -/
def btreeGet (m : BucketMap) (t : Nat) : Option (List Bytes) :=
  match m with
  | [] => none
  | (t', b) :: rest => if t' = t then some b else btreeGet rest t

/-- Replace the bucket stored at an existing time. -/
def btreeUpdate (t : Nat) (b : List Bytes) : BucketMap → BucketMap
  | [] => []
  | (t', b') :: rest =>
    if t' = t then (t', b) :: rest else (t', b') :: btreeUpdate t b rest

/-- `BTreeMap::remove`: drop the bucket at the given time. -/
def btreeRemove (t : Nat) : BucketMap → BucketMap
  | [] => []
  | (t', b') :: rest =>
    if t' = t then rest else (t', b') :: btreeRemove t rest

/-- `BTreeMap::insert` of a genuinely new time: sorted-position insertion. -/
def btreeInsertNew (t : Nat) (b : List Bytes) : BucketMap → BucketMap
  | [] => [(t, b)]
  | (t', b') :: rest =>
    if t < t' then (t, b) :: (t', b') :: rest
    else (t', b') :: btreeInsertNew t b rest

/-- `HashSet::insert` on a bucket. -/
def setInsert (k : Bytes) (s : List Bytes) : List Bytes :=
  if k ∈ s then s else s ++ [k]

/-- `HashSet::remove` on a bucket. -/
def setRemove (k : Bytes) (s : List Bytes) : List Bytes :=
  s.filter (fun x => decide (x ≠ k))

/-! ### `AuxMaps` from `src/common_maps.rs` -/

/-- The two auxiliary indexes of a shard. -/
structure AuxMaps where
  mapByTime : BucketMap
  mapByExpiration : BucketMap
  deriving DecidableEq

/-- `AuxMaps::new`. -/
def AuxMaps.new : AuxMaps := { mapByTime := [], mapByExpiration := [] }

/-- `AuxMaps::insert_into_map_by_time`. -/
def AuxMaps.insert_into_map_by_time (a : AuxMaps) (k : Bytes) (createdAt : Nat) : AuxMaps :=
  match btreeGet a.mapByTime createdAt with
  | some bucket => { a with mapByTime := btreeUpdate createdAt (setInsert k bucket) a.mapByTime }
  | none => { a with mapByTime := btreeInsertNew createdAt [k] a.mapByTime }

/-- `AuxMaps::remove_from_map_by_time`.  The `.unwrap()` on a missing bucket
is a panic, hence `Option`.  As in the source, a bucket of length one is
dropped wholesale without inspecting its element. -/
def AuxMaps.remove_from_map_by_time (a : AuxMaps) (k : Bytes) (t : Nat) : Option AuxMaps :=
  match btreeGet a.mapByTime t with
  | none => none
  | some bucket =>
    if bucket.length = 1 then some { a with mapByTime := btreeRemove t a.mapByTime }
    else some { a with mapByTime := btreeUpdate t (setRemove k bucket) a.mapByTime }

/-- `AuxMaps::first_value`: the lowest bucket of `map_by_time`; the
`.unwrap()` on an empty map is a panic. -/
def AuxMaps.first_value (a : AuxMaps) : Option (List Bytes) :=
  a.mapByTime.head?.map Prod.snd

/-- `AuxMaps::update_map_by_time` (read path, LRU enabled): atomically swap
`last_access_time` to `now` and migrate the key between buckets when the
stamp changed.  Returns the value with the swapped stamp. -/
def AuxMaps.update_map_by_time (a : AuxMaps) (k : Bytes) (v : Value) (now : Nat) :
    Option (AuxMaps × Value) :=
  let old := v.lastAccessTime
  let v' := { v with lastAccessTime := now }
  if now = old then some (a, v')
  else
    match a.remove_from_map_by_time k old with
    | none => none
    | some a1 => some (a1.insert_into_map_by_time k now, v')

/-- The expiration half of `AuxMaps::remove` (the `if let Some(ex)` block). -/
def AuxMaps.remove_exp_step (a : AuxMaps) (k : Bytes) (expiresAt : Option Nat) :
    Option AuxMaps :=
  match expiresAt with
  | some ex =>
    match btreeGet a.mapByExpiration ex with
    | none => none
    | some bucket =>
      if bucket.length = 1 then
        some { a with mapByExpiration := btreeRemove ex a.mapByExpiration }
      else
        some { a with mapByExpiration := btreeUpdate ex (setRemove k bucket) a.mapByExpiration }
  | none => some a

/-- `AuxMaps::remove`: drop the key from its expiration bucket (if it had a
deadline) and, when LRU is on, from its access-time bucket. -/
def AuxMaps.remove (a : AuxMaps) (k : Bytes) (expiresAt : Option Nat)
    (lastAccessTime : Nat) (cleanupUsingLru : Bool) : Option AuxMaps :=
  match a.remove_exp_step k expiresAt with
  | none => none
  | some a1 =>
    if cleanupUsingLru then a1.remove_from_map_by_time k lastAccessTime
    else some a1

/-- `AuxMaps::remove_expired`: keys listed under every deadline strictly
below `now`, in ascending bucket order. -/
def AuxMaps.remove_expired (a : AuxMaps) (now : Nat) : List Bytes :=
  (a.mapByExpiration.filter (fun p => decide (p.1 < now))).foldl
    (fun acc p => acc ++ p.2) []

/-- `AuxMaps::add`: register the key under its deadline (if any) and, when
LRU is on, under its creation stamp. -/
def AuxMaps.add (a : AuxMaps) (k : Bytes) (createdAt : Nat) (expiresAt : Option Nat)
    (cleanupUsingLru : Bool) : AuxMaps :=
  let a1 :=
    match expiresAt with
    | some ex =>
      match btreeGet a.mapByExpiration ex with
      | some bucket => { a with mapByExpiration := btreeUpdate ex (setInsert k bucket) a.mapByExpiration }
      | none => { a with mapByExpiration := btreeInsertNew ex [k] a.mapByExpiration }
    | none => a
  if cleanupUsingLru then a1.insert_into_map_by_time k createdAt else a1

/-! ### `CommonMaps` (one shard) from `src/common_maps.rs` -/

/-- One shard: primary map, auxiliary indexes, memory accounting. -/
structure CommonMaps where
  cleanupUsingLru : Bool
  maxMemory : Nat
  currentMemory : Nat
  map : List (Bytes × Value)
  aux : AuxMaps
  deriving DecidableEq

/-- `build_map` from `src/common_maps.rs`. -/
def build_map (maxMemory : Nat) (cleanupUsingLru : Bool) : CommonMaps :=
  { cleanupUsingLru := cleanupUsingLru, currentMemory := 0, maxMemory := maxMemory,
    map := [], aux := AuxMaps.new }

/-- `GetResult` from `src/common_maps.rs`. -/
inductive GetResult where
  | notFound
  | found
  | expired
  | wrongValue
  deriving DecidableEq

/-- `calculate_record_size` from `src/common_maps.rs`. -/
def calculate_record_size (keySize : Nat) (valueSize : Nat) : Nat :=
  3 * keySize + valueSize + 16

/-- `CommonMaps::flush`. -/
def CommonMaps.flush (s : CommonMaps) : CommonMaps × Nat :=
  ({ s with currentMemory := 0, map := [], aux := AuxMaps.new }, s.map.length)

/-- `CommonMaps::removekey`.  Panics (via `AuxMaps::remove`) surface as
`none`; otherwise returns the new shard and the 0/1 removal count. -/
def CommonMaps.removekey (s : CommonMaps) (k : Bytes) : Option (CommonMaps × Int) :=
  match mapRemoveEntry k s.map with
  | some (value, map') =>
    let mem' := s.currentMemory - calculate_record_size k.length value.size
    match s.aux.remove k value.expiresAt value.lastAccessTime s.cleanupUsingLru with
    | none => none
    | some aux' => some ({ s with currentMemory := mem', map := map', aux := aux' }, 1)
  | none => some (s, 0)

/-- The running loop of `CommonMaps::removekeys`, accumulating the count. -/
def CommonMaps.removekeys_go (s : CommonMaps) (keys : List Bytes) (n : Int) :
    Option (CommonMaps × Int) :=
  match keys with
  | [] => some (s, n)
  | k :: rest =>
    match s.removekey k with
    | none => none
    | some (s', m) => CommonMaps.removekeys_go s' rest (n + m)

/-- `CommonMaps::removekeys`: remove each key in turn, summing the counts. -/
def CommonMaps.removekeys (s : CommonMaps) (keys : List Bytes) : Option (CommonMaps × Int) :=
  s.removekeys_go keys 0

/-- Remove each listed key in turn, discarding the counts (the loop body of
`CommonMaps::remove_expired`). -/
def CommonMaps.remove_all (s : CommonMaps) (keys : List Bytes) : Option CommonMaps :=
  match keys with
  | [] => some s
  | k :: rest =>
    match s.removekey k with
    | none => none
    | some (s', _) => CommonMaps.remove_all s' rest

/-- `CommonMaps::remove_expired`: collect the expired keys, then remove each. -/
def CommonMaps.remove_expired_sweep (s : CommonMaps) (now : Nat) : Option CommonMaps :=
  s.remove_all (s.aux.remove_expired now)

/-- Result of `CommonMaps::cleanup`: `ok` = returned `true`, `overBudget` =
returned `false` (the `OutOfMemory` case, state kept for the caller's
rollback), `panic` = an `unwrap` failed, `diverge` = the LRU eviction loop
did not terminate within the fuel (unreachable for the fuel chosen below,
since every iteration removes the whole lowest bucket). -/
inductive CleanupResult where
  | ok (s : CommonMaps)
  | overBudget (s : CommonMaps)
  | panic
  | diverge
  deriving DecidableEq

/-- The `while current_memory >= max_memory` LRU eviction loop inside
`CommonMaps::cleanup`: clone the lowest `map_by_time` bucket (panic when the
map is empty) and remove every key in it. -/
def CommonMaps.lruLoop : Nat → CommonMaps → CleanupResult
  | 0, _ => .diverge
  | fuel + 1, s =>
    if s.maxMemory ≤ s.currentMemory then
      match s.aux.first_value with
      | none => .panic
      | some bucket =>
        match s.removekeys bucket with
        | none => .panic
        | some (s', _) => CommonMaps.lruLoop fuel s'
    else .ok s

/-- `CommonMaps::cleanup`: when over budget, sweep expired entries, then
either evict by LRU or report failure. -/
def CommonMaps.cleanup (s : CommonMaps) (now : Nat) : CleanupResult :=
  if s.maxMemory ≤ s.currentMemory then
    match s.remove_expired_sweep now with
    | none => .panic
    | some s1 =>
      if s1.cleanupUsingLru then
        CommonMaps.lruLoop (s1.currentMemory + s1.aux.mapByTime.length + 1) s1
      else if s1.maxMemory ≤ s1.currentMemory then .overBudget s1
      else .ok s1
  else .ok s

/-- Outcome of a mutating shard operation: Rust's `Result<A, Error>` on a
`&mut self`, plus the two abnormal terminations. -/
inductive OpOutcome (α : Type) where
  | ok (s : CommonMaps) (a : α)
  | err (s : CommonMaps) (e : CacheError)
  | panic
  | diverge
  deriving DecidableEq

/-- The optimistic accounting step of `set`/`hset`:
`current_memory += size`. -/
def bumpMem (s : CommonMaps) (size : Nat) : CommonMaps :=
  { s with currentMemory := s.currentMemory + size }

/-- The tail of `CommonMaps::set` after a successful cleanup: insert into
the primary map, fix the accounting and auxiliary indexes when an old value
was replaced, then register the new record. -/
def CommonMaps.set_finish (s2 : CommonMaps) (key : Bytes) (v : Value) (size : Nat) :
    OpOutcome Unit :=
  match mapInsertEntry key v s2.map with
  | (map', some old) =>
    match s2.aux.remove key old.expiresAt old.lastAccessTime s2.cleanupUsingLru with
    | none => .panic
    | some aux' =>
      .ok { s2 with
        map := map',
        currentMemory := s2.currentMemory - size + v.size - old.size,
        aux := aux'.add key v.lastAccessTime v.expiresAt s2.cleanupUsingLru } ()
  | (map', none) =>
    .ok { s2 with
      map := map',
      aux := s2.aux.add key v.lastAccessTime v.expiresAt s2.cleanupUsingLru } ()

/-- `CommonMaps::set` from `src/common_maps.rs`. -/
def CommonMaps.set (s : CommonMaps) (key : Bytes) (value : ValueHolder)
    (expiry : Option Nat) (now : Nat) : OpOutcome Unit :=
  match (bumpMem s (calculate_record_size key.length (Value.new value now expiry).size)).cleanup now with
  | .panic => .panic
  | .diverge => .diverge
  | .overBudget s2 =>
    .err { s2 with
      currentMemory :=
        s2.currentMemory - calculate_record_size key.length (Value.new value now expiry).size }
      .outOfMemory
  | .ok s2 =>
    s2.set_finish key (Value.new value now expiry)
      (calculate_record_size key.length (Value.new value now expiry).size)

/-- The tail of `CommonMaps::hset` after a successful cleanup.  Note: in the
merge branch the optimistically added `size` is never subtracted again, and
on a `WrongType` failure the function returns before any rollback. -/
def CommonMaps.hset_finish (s2 : CommonMaps) (key : Bytes) (values : List (Bytes × Bytes))
    (v : Value) (valuesLen : Int) : OpOutcome Int :=
  match mapGet s2.map key with
  | some existing =>
    match existing.merge values with
    | .error e => .err s2 e
    | .ok (merged, inserted) =>
      .ok { s2 with
        map := (mapInsertEntry key merged s2.map).1,
        currentMemory := s2.currentMemory - existing.size + merged.size } inserted
  | none =>
    .ok { s2 with
      map := (mapInsertEntry key v s2.map).1,
      aux := s2.aux.add key v.lastAccessTime v.expiresAt s2.cleanupUsingLru } valuesLen

/-- `CommonMaps::hset` from `src/common_maps.rs`. -/
def CommonMaps.hset (s : CommonMaps) (key : Bytes) (values : List (Bytes × Bytes))
    (now : Nat) : OpOutcome Int :=
  match (bumpMem s (calculate_record_size key.length (Value.new_hash values now).size)).cleanup now with
  | .panic => .panic
  | .diverge => .diverge
  | .overBudget s2 =>
    .err { s2 with
      currentMemory :=
        s2.currentMemory - calculate_record_size key.length (Value.new_hash values now).size }
      .outOfMemory
  | .ok s2 =>
    s2.hset_finish key values (Value.new_hash values now) (values.length : Int)

/-- `CommonMaps::hdel` from `src/common_maps.rs`: delete fields in place and
drop the whole key when the remaining field count reaches zero. -/
def CommonMaps.hdel (s : CommonMaps) (key : Bytes) (values : List Bytes) : OpOutcome Int :=
  match mapGet s.map key with
  | some existing =>
    match existing.delete values with
    | .error e => .err s e
    | .ok (newVal, deleted, l) =>
      if l = 0 then
        match CommonMaps.removekey { s with
            map := (mapInsertEntry key newVal s.map).1,
            currentMemory := s.currentMemory - existing.size + newVal.size } key with
        | none => .panic
        | some (s2, _) => .ok s2 deleted
      else
        .ok { s with
          map := (mapInsertEntry key newVal s.map).1,
          currentMemory := s.currentMemory - existing.size + newVal.size } deleted
  | none => .ok s 0

/-! ### `src/resp_encoder.rs` -/

/-- Decimal ASCII digits of a natural number (`usize::to_string`). -/
def natToDigits (n : Nat) : Bytes := (Nat.toDigits 10 n).map Char.toNat

/-- Decimal ASCII of a signed integer (`isize::to_string`). -/
def intToBytes (i : Int) : Bytes :=
  if i < 0 then Char.toNat '-' :: natToDigits i.natAbs else natToDigits i.natAbs

/-- `resp_encode_binary_string` from `src/resp_encoder.rs` (the bytes it
appends to the result buffer). -/
def resp_encode_binary_string (s : Bytes) : Bytes :=
  strBytes "$" ++ natToDigits s.length ++ strBytes "\r\n" ++ s ++ strBytes "\r\n"

/-- `resp_encode_int` from `src/resp_encoder.rs`. -/
def resp_encode_int (i : Int) : Bytes :=
  strBytes ":" ++ intToBytes i ++ strBytes "\r\n"

/-- `resp_encode_array2` from `src/resp_encoder.rs`. -/
def resp_encode_array2 (c1 c2 : Bytes) : Bytes :=
  strBytes "*2\r\n" ++ resp_encode_binary_string c1 ++ resp_encode_binary_string c2

/-- Modelled from the spec: `resp_encode_map` is imported by
`src/common_maps.rs` but absent from the `src/resp_encoder.rs` snapshot; the
spec describes it as "encode hash (as interleaved field/value bulk strings
in a `*<2k>\r\n` array)". -/
def resp_encode_map (m : List (Bytes × Bytes)) : Bytes :=
  strBytes "*" ++ natToDigits (2 * m.length) ++ strBytes "\r\n" ++
    m.foldl (fun acc kv =>
      acc ++ resp_encode_binary_string kv.1 ++ resp_encode_binary_string kv.2) []

/-! ### Shard read paths from `src/common_maps.rs` -/

/-- `CommonMaps::get`: returns the `GetResult`, the bytes appended to the
output buffer, and the shard (whose auxiliary index may migrate under LRU;
`none` is the panic of that migration on an inconsistent index). -/
def CommonMaps.get (s : CommonMaps) (key : Bytes) (now : Nat) :
    Option (GetResult × Bytes × CommonMaps) :=
  match mapGet s.map key with
  | none => some (.notFound, [], s)
  | some value =>
    if value.is_expired now then some (.expired, [], s)
    else
      match value.get_value with
      | some v =>
        let out := resp_encode_binary_string v
        if s.cleanupUsingLru then
          match s.aux.update_map_by_time key value now with
          | none => none
          | some (aux', value') =>
            some (.found, out, { s with map := (mapInsertEntry key value' s.map).1, aux := aux' })
        else some (.found, out, s)
      | none =>
        match value.get_ivalue with
        | some i =>
          let out := resp_encode_int i
          if s.cleanupUsingLru then
            match s.aux.update_map_by_time key value now with
            | none => none
            | some (aux', value') =>
              some (.found, out, { s with map := (mapInsertEntry key value' s.map).1, aux := aux' })
          else some (.found, out, s)
        | none => some (.wrongValue, [], s)

/-- `CommonMaps::hgetall`. -/
def CommonMaps.hgetall (s : CommonMaps) (key : Bytes) (now : Nat) :
    Option (GetResult × Bytes × CommonMaps) :=
  match mapGet s.map key with
  | none => some (.notFound, [], s)
  | some value =>
    if value.is_expired now then some (.expired, [], s)
    else
      match value.get_hvalue with
      | some m =>
        let out := resp_encode_map m
        if s.cleanupUsingLru then
          match s.aux.update_map_by_time key value now with
          | none => none
          | some (aux', value') =>
            some (.found, out, { s with map := (mapInsertEntry key value' s.map).1, aux := aux' })
        else some (.found, out, s)
      | none => some (.wrongValue, [], s)

/-! ### Dispatcher-level handlers (`src/worker_data.rs`, `src/resp_commands.rs`)

`WorkerData` routes each key to one shard via the hash selector; the model
works against that shard directly.  Each handler returns the reply bytes
plus the resulting shard, `none` being a panic. -/

/-- `"$-1\r\n"`, the `NULL_STRING` constant of `src/resp_commands.rs`. -/
def nullStringBytes : Bytes := strBytes "$-1\r\n"

/-- `"*-1\r\n"`, the `NULL_ARRAY` constant of `src/resp_commands.rs`. -/
def nullArrayBytes : Bytes := strBytes "*-1\r\n"

/-- `"+OK\r\n"`. -/
def okBytes : Bytes := strBytes "+OK\r\n"

/-- `INVALID_COMMAND_ERROR` from `src/resp_parser.rs`. -/
def invalidCommandBytes : Bytes := strBytes "-invalid command\r\n"

/-- `WorkerData::get` followed by `run_get_command`'s reply assembly: a GET
against the shard holding the key.  On `Expired` the read lock is upgraded
and the key removed; `NotFound`/`Expired` reply with the null bulk string,
`WrongValue` surfaces the `WrongType` payload. -/
def run_get_on_shard (s : CommonMaps) (key : Bytes) (now : Nat) :
    Option (Bytes × CommonMaps) :=
  match s.get key now with
  | none => none
  | some (.found, out, s') => some (out, s')
  | some (.notFound, _, s') => some (nullStringBytes, s')
  | some (.wrongValue, _, s') => some (errorBytes .wrongType, s')
  | some (.expired, _, s') =>
    match s'.removekey key with
    | none => none
    | some (s2, _) => some (nullStringBytes, s2)

/-- `WorkerData::hgetall` followed by `run_hgetall_command`'s reply assembly. -/
def run_hgetall_on_shard (s : CommonMaps) (key : Bytes) (now : Nat) :
    Option (Bytes × CommonMaps) :=
  match s.hgetall key now with
  | none => none
  | some (.found, out, s') => some (out, s')
  | some (.notFound, _, s') => some (nullStringBytes, s')
  | some (.wrongValue, _, s') => some (errorBytes .wrongType, s')
  | some (.expired, _, s') =>
    match s'.removekey key with
    | none => none
    | some (s2, _) => some (nullStringBytes, s2)

/-! ### `src/resp_parser.rs` -/

/-- `RespToken` from `src/resp_parser.rs`. -/
inductive RespToken where
  | respArray (v : List RespToken)
  | respString (s : Bytes)
  | respBinaryString (s : Bytes)
  | respInteger (n : Int)
  | respNullArray
  | respNullString

/-- `buffer[idx]`; every read in the source is guarded by `idx < amt`, with
`amt` at most the buffer length. -/
def getByte (buffer : Bytes) (idx : Nat) : Nat := buffer.getD idx 0

/-- `&buffer[fromIdx..toIdx]` as a fresh byte vector. -/
def sliceBytes (buffer : Bytes) (fromIdx toIdx : Nat) : Bytes :=
  (buffer.drop fromIdx).take (toIdx - fromIdx)

/-- The loop of `parse_number`: `-` flips the sign, digits accumulate, `\r`
terminates (an immediate `\r` is an error); anything else is an error.  The
structural `fuel` only pads the index-driven loop: the wrapper passes
`amt + 1`, which the loop cannot exhaust before `newIdx` passes `amt`. -/
def parse_number_go (buffer : Bytes) (amt idx : Nat) :
    Nat → Nat → Int → Int → Except Bytes (Nat × Int)
  | 0, _, _, _ => .error invalidCommandBytes
  | fuel + 1, newIdx, result, sign =>
    if newIdx < amt then
      if getByte buffer newIdx = 45 then
        parse_number_go buffer amt idx fuel (newIdx + 1) result (-sign)
      else if 48 ≤ getByte buffer newIdx ∧ getByte buffer newIdx ≤ 57 then
        parse_number_go buffer amt idx fuel (newIdx + 1)
          (result * 10 + (getByte buffer newIdx - 48 : Nat)) sign
      else if getByte buffer newIdx = 13 then
        if idx = newIdx then .error invalidCommandBytes
        else .ok (newIdx + 2, result * sign)
      else .error invalidCommandBytes
    else .error invalidCommandBytes

/-- `parse_number` from `src/resp_parser.rs`. -/
def parse_number (buffer : Bytes) (idx amt : Nat) : Except Bytes (Nat × Int) :=
  parse_number_go buffer amt idx (amt + 1) idx 0 1

/-- The scan of `parse_string`: bytes up to the next `\r`; fuel as in
`parse_number_go`. -/
def parse_string_go (buffer : Bytes) (amt idx : Nat) :
    Nat → Nat → Except Bytes (Nat × Bytes)
  | 0, _ => .error invalidCommandBytes
  | fuel + 1, newIdx =>
    if newIdx < amt then
      if getByte buffer newIdx = 13 then .ok (newIdx + 2, sliceBytes buffer idx newIdx)
      else parse_string_go buffer amt idx fuel (newIdx + 1)
    else .error invalidCommandBytes

/-- `parse_string` from `src/resp_parser.rs` (inline-command mode). -/
def parse_string (buffer : Bytes) (idx amt : Nat) : Except Bytes (Nat × Bytes) :=
  parse_string_go buffer amt idx (amt + 1) idx

/-- `parse_binary_string` from `src/resp_parser.rs` (`string_end` and `end`
inlined as `newIdx + count.toNat` and `newIdx + count.toNat + 2`). -/
def parse_binary_string (buffer : Bytes) (idx amt : Nat) : Except Bytes (Nat × RespToken) :=
  match parse_number buffer idx amt with
  | .error e => .error e
  | .ok (newIdx, count) =>
    if count = -1 then .ok (newIdx, .respNullString)
    else if count = 0 then .ok (newIdx + 2, .respBinaryString [])
    else if count < 0 then .error invalidCommandBytes
    else if amt < newIdx + count.toNat + 2 then .error invalidCommandBytes
    else .ok (newIdx + count.toNat + 2,
      .respBinaryString (sliceBytes buffer newIdx (newIdx + count.toNat)))

/-- The `for _i in 0..n` element loop of `parse_array`, abstracted over the
function parsing one element (`parse_token` at the current fuel). -/
def parseArrayItems (step : Nat → Except Bytes (Nat × RespToken)) :
    Nat → Nat → List RespToken → Except Bytes (Nat × List RespToken)
  | 0, idx, acc => .ok (idx, acc)
  | count + 1, idx, acc =>
    match step idx with
    | .error e => .error e
    | .ok (newIdx, tok) => parseArrayItems step count newIdx (acc ++ [tok])

/-- `parse_token` from `src/resp_parser.rs`, with `parse_array`'s body
inlined at the `*` case.  `fuel` bounds the token-nesting depth; it only
decreases when descending into an array element, and `parse_tokens_go`
supplies more fuel than any input of length `amt` can consume. -/
def parseToken : Nat → Bytes → Nat → Nat → Except Bytes (Nat × RespToken)
  | 0, _, _, _ => .error invalidCommandBytes
  | fuel + 1, buffer, idx, amt =>
    if idx < amt then
      if getByte buffer idx = 42 then
        match parse_number buffer (idx + 1) amt with
        | .error e => .error e
        | .ok (newIdx, n) =>
          if n = -1 then .ok (newIdx, .respNullArray)
          else if n < 0 then .error invalidCommandBytes
          else
            match parseArrayItems (fun i => parseToken fuel buffer i amt) n.toNat newIdx [] with
            | .error e => .error e
            | .ok (finalIdx, items) => .ok (finalIdx, .respArray items)
      else if getByte buffer idx = 36 then parse_binary_string buffer (idx + 1) amt
      else if getByte buffer idx = 58 then
        match parse_number buffer (idx + 1) amt with
        | .error e => .error e
        | .ok (newIdx, n) => .ok (newIdx, .respInteger n)
      else
        match parse_string buffer idx amt with
        | .error e => .error e
        | .ok (newIdx, sb) => .ok (newIdx, .respString sb)
    else .error invalidCommandBytes

/-- The `while idx < amt` loop of `parse_tokens`; the fuel exceeds the
number of tokens any buffer of length `amt` can hold (each parsed token
advances the index). -/
def parse_tokens_go : Nat → Bytes → Nat → Nat → List RespToken → Except Bytes (List RespToken)
  | 0, _, _, _, _ => .error invalidCommandBytes
  | fuel + 1, buffer, idx, amt, acc =>
    if idx < amt then
      match parseToken (amt + 1) buffer idx amt with
      | .error e => .error e
      | .ok (newIdx, tok) => parse_tokens_go fuel buffer newIdx amt (acc ++ [tok])
    else if idx = amt then .ok acc
    else .error invalidCommandBytes

/-- `parse_tokens` from `src/resp_parser.rs`. -/
def parse_tokens (buffer : Bytes) (amt : Nat) : Except Bytes (List RespToken) :=
  parse_tokens_go (amt + 1) buffer 0 amt []

/-- `resp_parse` from `src/resp_parser.rs`, abstracted over the dispatcher
(`run_command` appends each token's reply to one output buffer). -/
def resp_parse (run : RespToken → Bytes) (buffer : Bytes) (amt : Nat) : Bytes :=
  match parse_tokens buffer amt with
  | .error e => e
  | .ok tokens => tokens.foldl (fun acc t => acc ++ run t) []

/-! ### `run_set_command` from `src/resp_commands.rs` -/

/-- Reply assembly shared by the SET paths: `Ok` → `+OK\r\n`, an error →
its payload; abnormal shard terminations stay abnormal. -/
def surfaceSet : OpOutcome Unit → Option (Bytes × CommonMaps)
  | .ok s _ => some (okBytes, s)
  | .err s e => some (errorBytes e, s)
  | .panic => none
  | .diverge => none

/-- `set_with_result` from `src/resp_commands.rs`: reject a TTL `<= 0` as an
invalid command, otherwise set with that expiry. -/
def set_with_result (k : Bytes) (vv : ValueHolder) (e : Int) (s : CommonMaps) (now : Nat) :
    Option (Bytes × CommonMaps) :=
  if e ≤ 0 then some (invalidCommandBytes, s)
  else surfaceSet (s.set k vv (some e.toNat) now)

/-- The accumulating loop of `parse_number_from_vec`: `-` flips the sign,
digits extend the result, anything else aborts. -/
def parse_number_from_vec_go (v : Bytes) (sign result : Int) : Option (Int × Int) :=
  match v with
  | [] => some (sign, result)
  | c :: rest =>
    if c = 45 then parse_number_from_vec_go rest (-sign) result
    else if 48 ≤ c ∧ c ≤ 57 then
      parse_number_from_vec_go rest sign (result * 10 + ((c - 48 : Nat) : Int))
    else none

/-- `parse_number_from_vec` from `src/resp_commands.rs`.  Note that the
accumulated `sign` is never applied to the returned value. -/
def parse_number_from_vec (v : Bytes) : Option Int :=
  (parse_number_from_vec_go v 1 0).map Prod.snd

/-- `run_set_command` from `src/resp_commands.rs`, acting on the shard the
key hashes to.  `v` is the full token array (`v[0]` is the verb).  The
source guards on `l >= 3`, reads `v[1]`/`v[2]`, handles `l == 3` and
`l == 5` (with `v[3]` a two-byte `?x`/`?X` option naming `EX` or `PX` and
`v[4]` the numeric argument), and replies `-invalid command\r\n` in every
other shape; the list patterns below mirror those guards exactly. -/
def run_set_command (v : List RespToken) (s : CommonMaps) (now : Nat) :
    Option (Bytes × CommonMaps) :=
  match v with
  | _ :: .respBinaryString k :: valTok :: rest =>
    match (match valTok with
           | .respBinaryString bs => some (ValueHolder.stringValue bs)
           | .respInteger i => some (ValueHolder.intValue i)
           | _ => none) with
    | none => some (invalidCommandBytes, s)
    | some value =>
      match rest with
      | [] => surfaceSet (s.set k value none now)
      | [.respBinaryString o, numTok] =>
        if o.length = 2 then
          if getByte o 1 = 120 ∨ getByte o 1 = 88 then
            if getByte o 0 = 101 ∨ getByte o 0 = 69 then
              match numTok with
              | .respInteger ex => set_with_result k value (ex * 1000) s now
              | .respBinaryString ds =>
                match parse_number_from_vec ds with
                | some ex => set_with_result k value (ex * 1000) s now
                | none => some (invalidCommandBytes, s)
              | _ => some (invalidCommandBytes, s)
            else if getByte o 0 = 112 ∨ getByte o 0 = 80 then
              match numTok with
              | .respInteger ex => set_with_result k value ex s now
              | .respBinaryString ds =>
                match parse_number_from_vec ds with
                | some ex => set_with_result k value ex s now
                | none => some (invalidCommandBytes, s)
              | _ => some (invalidCommandBytes, s)
            else some (invalidCommandBytes, s)
          else some (invalidCommandBytes, s)
        else some (invalidCommandBytes, s)
      | _ => some (invalidCommandBytes, s)
  | _ => some (invalidCommandBytes, s)

/-! ### `src/hash_builders.rs` -/

/-- The concrete `HashBuilder` implementations. -/
inductive HashBuilderT where
  | zeroHash
  | xorHash (maxValue : Nat)
  | xorHash256
  | sumHash (maxValue : Nat)
  | djb2Hash (maxValue : Nat)
  | sdbmHash (maxValue : Nat)
  deriving DecidableEq

/-- `usize` wraparound for the deliberately-overflowing hash accumulators. -/
def w64 (n : Nat) : Nat := n % (2 ^ 64)

/-- `build_hash` of each variant.  A byte is reduced `% 256` (`u8`), the
accumulators wrap `% 2^64` (`usize`), and a remainder by zero — reachable
when a divisor-bearing variant is built with `max_value = 0` — is a panic,
hence `none`. -/
def build_hash : HashBuilderT → Bytes → Option Nat
  | .zeroHash, _ => some 0
  | .xorHash m, key =>
    let h := key.foldl (fun a c => Nat.xor a (c % 256)) 0
    if m = 0 then none else some (h % m)
  | .xorHash256, key => some (key.foldl (fun a c => Nat.xor a (c % 256)) 0)
  | .sumHash m, key =>
    let h := key.foldl (fun a c => w64 (a + c % 256)) 0
    if m = 0 then none else some (h % m)
  | .djb2Hash m, key =>
    let h := key.foldl (fun a c => w64 (w64 (w64 (a <<< 5) + a) + c % 256)) 5381
    if m = 0 then none else some (h % m)
  | .sdbmHash m, key =>
    let h := key.foldl
      (fun a c => w64 (w64 (w64 (c % 256 + w64 (a <<< 6)) + w64 (a <<< 16)) + (2 ^ 64 - a % 2 ^ 64)))
      0
    if m = 0 then none else some (h % m)

/-- `InvalidInput` errors from `create_hash_builder`. -/
inductive HashBuilderError where
  | invalidInput (msg : String)
  deriving DecidableEq

/-- `create_hash_builder` from `src/hash_builders.rs`. -/
def create_hash_builder (name : String) (maxValue : Nat) :
    Except HashBuilderError HashBuilderT :=
  if maxValue = 1 then .ok .zeroHash
  else
    match name with
    | "xor" =>
      if maxValue < 256 then .ok (.xorHash maxValue)
      else if maxValue = 256 then .ok .xorHash256
      else .error (.invalidInput "xor hash builder supports only max_value <= 256")
    | "sum" => .ok (.sumHash maxValue)
    | "djb2" => .ok (.djb2Hash maxValue)
    | "sdbm" => .ok (.sdbmHash maxValue)
    | _ => .error (.invalidInput "invalid hash builder type")

/-! ### Spec-side definitions and proof-level helpers -/

/-- Spec side: "The sum over the primary map of
`record_size(key.len, value.size())`". -/
def memSum (m : List (Bytes × Value)) : Nat :=
  (m.map (fun kv => calculate_record_size kv.1.length kv.2.size)).sum

/-- The shard a mutating operation left behind (abnormal outcomes have
none). -/
def outcomeState {α : Type} : OpOutcome α → Option CommonMaps
  | .ok s _ => some s
  | .err s _ => some s
  | .panic => none
  | .diverge => none

/-- The value returned by a successful mutating operation. -/
def outcomeValue {α : Type} : OpOutcome α → Option α
  | .ok _ a => some a
  | _ => none

/-- The key occurs in no bucket of the given index. -/
def bucketsFreeOf (m : BucketMap) (k : Bytes) : Prop :=
  ∀ tb ∈ m, k ∉ tb.2

/-- The key occurs in neither auxiliary index. -/
def auxFreeOf (a : AuxMaps) (k : Bytes) : Prop :=
  bucketsFreeOf a.mapByTime k ∧ bucketsFreeOf a.mapByExpiration k

/-- The key is entirely unknown to the shard: absent from the primary map
and from both auxiliary indexes. -/
def KeyClean (s : CommonMaps) (k : Bytes) : Prop :=
  mapGet s.map k = none ∧ auxFreeOf s.aux k

/-- The auxiliary-index occurrences of a key are consistent with its stored
value (the spec's global invariants 1–3, restricted to one key), and bucket
times are unambiguous. -/
def keyOnlyInOwnBuckets (s : CommonMaps) (k : Bytes) (val : Value) : Prop :=
  (∀ tb ∈ s.aux.mapByExpiration, k ∈ tb.2 → val.expiresAt = some tb.1) ∧
  (s.aux.mapByExpiration.map Prod.fst).Nodup ∧
  (if s.cleanupUsingLru then
     (∀ tb ∈ s.aux.mapByTime, k ∈ tb.2 → tb.1 = val.lastAccessTime) ∧
     (s.aux.mapByTime.map Prod.fst).Nodup
   else bucketsFreeOf s.aux.mapByTime k)

/-- Shard-level facts preserved by every removal: budget, eviction flag, and
memory never grows. -/
def Pres (s s' : CommonMaps) : Prop :=
  s'.maxMemory = s.maxMemory ∧ s'.cleanupUsingLru = s.cleanupUsingLru ∧
  s'.currentMemory ≤ s.currentMemory

/-- Spec side for C8: the decimal value of an ASCII digit string. -/
def digitsVal (ds : Bytes) : Int :=
  ds.foldl (fun a c => a * 10 + ((c - 48 : Nat) : Int)) 0

/-! ### Concrete scenarios used by counterexamples and code-bug evidence -/

/-- C1 scenario: `HSET a b c` twice on a fresh shard (key `"a"`, one field
`"b" ↦ "c"`, LRU off, large budget). -/
def afterTwoHsets : OpOutcome Int :=
  match CommonMaps.hset (build_map 1000000 false) [97] [([98], [99])] 0 with
  | .ok s _ => CommonMaps.hset s [97] [([98], [99])] 0
  | o => o

/-- C5 scenario: `HSET h f v`, `HDEL h f`, then `HGETALL h` on a fresh
LRU-enabled shard. -/
def c5Chain : Option (Bytes × CommonMaps) :=
  match CommonMaps.hset (build_map 1000 true) [104] [([102], [118])] 0 with
  | .ok s _ =>
    match CommonMaps.hdel s [104] [[102]] with
    | .ok s2 _ => run_hgetall_on_shard s2 [104] 0
    | _ => none
  | _ => none

/-- C6 scenario, step 1: `SET k "" EX-ish 5` on a shard with budget 25. -/
def c6Setup : Option CommonMaps :=
  outcomeState (CommonMaps.set (build_map 25 false) [107] (.stringValue []) (some 5) 0)

/-- C6 scenario, step 2: `HSET k f v` at `now = 10`, when the stored string
value has been expired for 5 ms and the admission sweep removes it. -/
def c6After : Option (OpOutcome Int) :=
  c6Setup.map (fun s => CommonMaps.hset s [107] [([102], [118])] 10)

/-- C6 witness state: a shard holding `k ↦ Int 5` under a large budget. -/
def c6WitState : CommonMaps :=
  { cleanupUsingLru := false, maxMemory := 1000, currentMemory := 27,
    map := [([107], ⟨.intValue 5, 0, none⟩)], aux := AuxMaps.new }

/-- C5 witness state: the shard after `HSET h f v` on a fresh LRU shard
with budget 1000 at `now = 0`. -/
def c5WitS1 : CommonMaps :=
  { cleanupUsingLru := true, maxMemory := 1000, currentMemory := 21,
    map := [([104], ⟨.hashMapValue [([102], [118])], 0, none⟩)],
    aux := { mapByTime := [(0, [[104]])], mapByExpiration := [] } }

/-- C3 witness state: an expired string key (`created_at 0`, TTL 5). -/
def c3ExpState : CommonMaps :=
  { cleanupUsingLru := false, maxMemory := 1000, currentMemory := 19,
    map := [([107], ⟨.stringValue [], 0, some 5⟩)],
    aux := { mapByTime := [], mapByExpiration := [(5, [[107]])] } }

/-- C3 witness state: a live string key. -/
def c3StrState : CommonMaps :=
  { cleanupUsingLru := false, maxMemory := 1000, currentMemory := 20,
    map := [([107], ⟨.stringValue [118], 0, none⟩)], aux := AuxMaps.new }

/-- C3 witness state: a live integer key. -/
def c3IntState : CommonMaps :=
  { cleanupUsingLru := false, maxMemory := 1000, currentMemory := 27,
    map := [([107], ⟨.intValue 7, 0, none⟩)], aux := AuxMaps.new }

/-- C3 witness state: a live set-valued key. -/
def c3SetState : CommonMaps :=
  { cleanupUsingLru := false, maxMemory := 1000, currentMemory := 20,
    map := [([107], ⟨.hashSetValue [[1]], 0, none⟩)], aux := AuxMaps.new }

/-- C8 scenario: `SET k v EX "-5"` with the TTL as a bulk string. -/
def c8Tokens : List RespToken :=
  [.respBinaryString (strBytes "set"), .respBinaryString [107], .respBinaryString [118],
   .respBinaryString (strBytes "ex"), .respBinaryString (strBytes "-5")]

/-- Outcome of the C8 scenario on a fresh shard. -/
def c8Result : Option (Bytes × CommonMaps) :=
  run_set_command c8Tokens (build_map 1000 false) 0

instance (m : BucketMap) (k : Bytes) : Decidable (bucketsFreeOf m k) :=
  inferInstanceAs (Decidable (∀ tb ∈ m, k ∉ tb.2))

instance (a : AuxMaps) (k : Bytes) : Decidable (auxFreeOf a k) :=
  inferInstanceAs (Decidable (bucketsFreeOf a.mapByTime k ∧ bucketsFreeOf a.mapByExpiration k))

instance (s : CommonMaps) (k : Bytes) : Decidable (KeyClean s k) :=
  inferInstanceAs (Decidable (mapGet s.map k = none ∧ auxFreeOf s.aux k))

instance (s : CommonMaps) (k : Bytes) (val : Value) : Decidable (keyOnlyInOwnBuckets s k val) :=
  inferInstanceAs (Decidable
    ((∀ tb ∈ s.aux.mapByExpiration, k ∈ tb.2 → val.expiresAt = some tb.1) ∧
      (s.aux.mapByExpiration.map Prod.fst).Nodup ∧
      (if s.cleanupUsingLru then
        (∀ tb ∈ s.aux.mapByTime, k ∈ tb.2 → tb.1 = val.lastAccessTime) ∧
          (s.aux.mapByTime.map Prod.fst).Nodup
      else bucketsFreeOf s.aux.mapByTime k)))

/-! ### Lemmas about the primary-map association list -/

theorem mapGet_cons (k' : Bytes) (v : Value) (rest : List (Bytes × Value)) (k : Bytes) :
    mapGet ((k', v) :: rest) k = if k' = k then some v else mapGet rest k := rfl

theorem mapGet_none_of_removeEntry {m : List (Bytes × Value)} {k k' : Bytes}
    {v : Value} {m' : List (Bytes × Value)}
    (h : mapGet m k = none) (hrem : mapRemoveEntry k' m = some (v, m')) :
    mapGet m' k = none := by
  induction m generalizing m' with
  | nil => simp [mapRemoveEntry] at hrem
  | cons hd tl ih =>
    obtain ⟨k₀, v₀⟩ := hd
    rw [mapGet_cons] at h
    by_cases hk : k₀ = k
    · simp [hk] at h
    · simp only [if_neg hk] at h
      simp only [mapRemoveEntry] at hrem
      by_cases hk' : k₀ = k'
      · simp only [if_pos hk'] at hrem
        obtain ⟨rfl, rfl⟩ := Prod.mk.injEq .. ▸ (Option.some.injEq .. ▸ hrem)
        exact h
      · simp only [if_neg hk', Option.map_eq_some'] at hrem
        obtain ⟨⟨v₁, m₁⟩, hr, heq⟩ := hrem
        obtain ⟨rfl, rfl⟩ := Prod.mk.injEq .. ▸ heq
        rw [mapGet_cons, if_neg hk]
        exact ih h hr

theorem mapGet_of_removeEntry {m : List (Bytes × Value)} {k : Bytes}
    {v : Value} {m' : List (Bytes × Value)}
    (hrem : mapRemoveEntry k m = some (v, m')) : mapGet m k = some v := by
  induction m generalizing m' with
  | nil => simp [mapRemoveEntry] at hrem
  | cons hd tl ih =>
    obtain ⟨k₀, v₀⟩ := hd
    rw [mapGet_cons]
    simp only [mapRemoveEntry] at hrem
    by_cases hk : k₀ = k
    · simp only [if_pos hk] at hrem ⊢
      exact congrArg some (Prod.mk.injEq .. ▸ (Option.some.injEq .. ▸ hrem)).1
    · simp only [if_neg hk, Option.map_eq_some'] at hrem
      obtain ⟨⟨v₁, m₁⟩, hr, heq⟩ := hrem
      injection heq with hv hm
      subst hv
      rw [if_neg hk]
      exact ih hr

theorem removeEntry_of_mapGet {m : List (Bytes × Value)} {k : Bytes} {v : Value}
    (h : mapGet m k = some v) : ∃ m', mapRemoveEntry k m = some (v, m') := by
  induction m with
  | nil => simp [mapGet] at h
  | cons hd tl ih =>
    obtain ⟨k₀, v₀⟩ := hd
    rw [mapGet_cons] at h
    by_cases hk : k₀ = k
    · refine ⟨tl, ?_⟩
      simp only [mapRemoveEntry, if_pos hk]
      simp only [if_pos hk] at h
      exact congrArg some (congrArg (·, tl) (Option.some.injEq .. ▸ h))
    · simp only [if_neg hk] at h
      obtain ⟨m₁, hm₁⟩ := ih h
      exact ⟨(k₀, v₀) :: m₁, by simp only [mapRemoveEntry, if_neg hk, hm₁, Option.map_some']⟩

theorem mapGet_none_of_not_fst {m : List (Bytes × Value)} {k : Bytes}
    (h : k ∉ m.map Prod.fst) : mapGet m k = none := by
  induction m with
  | nil => rfl
  | cons hd tl ih =>
    obtain ⟨k₀, v₀⟩ := hd
    simp only [List.map_cons, List.mem_cons] at h
    push_neg at h
    rw [mapGet_cons, if_neg (fun hk => h.1 hk.symm)]
    exact ih h.2

theorem mapGet_mem {m : List (Bytes × Value)} {k : Bytes} {v : Value}
    (h : mapGet m k = some v) : (k, v) ∈ m := by
  induction m with
  | nil => simp [mapGet] at h
  | cons hd tl ih =>
    obtain ⟨k₀, v₀⟩ := hd
    rw [mapGet_cons] at h
    by_cases hk : k₀ = k
    · simp only [if_pos hk] at h
      exact hk ▸ (Option.some.injEq .. ▸ h) ▸ List.mem_cons_self _ _
    · exact List.mem_cons_of_mem _ (ih (by simpa [if_neg hk] using h))

theorem mapGet_none_removeEntry_nodup {m : List (Bytes × Value)} {k : Bytes}
    {v : Value} {m' : List (Bytes × Value)}
    (hnd : (m.map Prod.fst).Nodup) (hrem : mapRemoveEntry k m = some (v, m')) :
    mapGet m' k = none := by
  induction m generalizing m' with
  | nil => simp [mapRemoveEntry] at hrem
  | cons hd tl ih =>
    obtain ⟨k₀, v₀⟩ := hd
    simp only [List.map_cons, List.nodup_cons] at hnd
    simp only [mapRemoveEntry] at hrem
    by_cases hk : k₀ = k
    · simp only [if_pos hk] at hrem
      injection hrem with hrem'
      injection hrem' with hv hm
      subst hm
      subst hk
      exact mapGet_none_of_not_fst hnd.1
    · simp only [if_neg hk, Option.map_eq_some'] at hrem
      obtain ⟨⟨v₁, m₁⟩, hr, heq⟩ := hrem
      injection heq with hv hm
      subst hv
      subst hm
      rw [mapGet_cons, if_neg hk]
      exact ih hnd.2 hr

theorem mapInsertEntry_absent {m : List (Bytes × Value)} {k : Bytes} (v : Value)
    (h : mapGet m k = none) : mapInsertEntry k v m = (m ++ [(k, v)], none) := by
  induction m with
  | nil => rfl
  | cons hd tl ih =>
    obtain ⟨k₀, v₀⟩ := hd
    rw [mapGet_cons] at h
    by_cases hk : k₀ = k
    · simp [if_pos hk] at h
    · simp only [if_neg hk] at h
      simp [mapInsertEntry, if_neg hk, ih h]

theorem mapGet_append_self {m : List (Bytes × Value)} {k : Bytes} (v : Value)
    (h : mapGet m k = none) : mapGet (m ++ [(k, v)]) k = some v := by
  induction m with
  | nil => simp [mapGet]
  | cons hd tl ih =>
    obtain ⟨k₀, v₀⟩ := hd
    rw [mapGet_cons] at h
    by_cases hk : k₀ = k
    · simp [if_pos hk] at h
    · simp only [if_neg hk] at h
      rw [List.cons_append, mapGet_cons, if_neg hk]
      exact ih h

theorem mapRemoveEntry_append_self {m : List (Bytes × Value)} {k : Bytes} (v : Value)
    (h : mapGet m k = none) : mapRemoveEntry k (m ++ [(k, v)]) = some (v, m) := by
  induction m with
  | nil => simp [mapRemoveEntry]
  | cons hd tl ih =>
    obtain ⟨k₀, v₀⟩ := hd
    rw [mapGet_cons] at h
    by_cases hk : k₀ = k
    · simp [if_pos hk] at h
    · simp only [if_neg hk] at h
      rw [List.cons_append]
      simp [mapRemoveEntry, if_neg hk, ih h]

theorem mapInsertEntry_append_self {m : List (Bytes × Value)} {k : Bytes} (v w : Value)
    (h : mapGet m k = none) :
    mapInsertEntry k w (m ++ [(k, v)]) = (m ++ [(k, w)], some v) := by
  induction m with
  | nil => simp [mapInsertEntry]
  | cons hd tl ih =>
    obtain ⟨k₀, v₀⟩ := hd
    rw [mapGet_cons] at h
    by_cases hk : k₀ = k
    · simp [if_pos hk] at h
    · simp only [if_neg hk] at h
      rw [List.cons_append]
      simp [mapInsertEntry, if_neg hk, ih h]

/-! ### Lemmas about the ordered bucket maps -/

theorem mem_btreeRemove {m : BucketMap} {t : Nat} {tb : Nat × List Bytes}
    (h : tb ∈ btreeRemove t m) : tb ∈ m := by
  induction m with
  | nil => simp [btreeRemove] at h
  | cons hd tl ih =>
    obtain ⟨t₀, b₀⟩ := hd
    simp only [btreeRemove] at h
    by_cases ht : t₀ = t
    · exact List.mem_cons_of_mem _ (by simpa [if_pos ht] using h)
    · rw [if_neg ht] at h
      rcases List.mem_cons.mp h with h1 | h2
      · exact h1 ▸ List.mem_cons_self _ _
      · exact List.mem_cons_of_mem _ (ih h2)

theorem mem_btreeUpdate {m : BucketMap} {t : Nat} {b : List Bytes} {tb : Nat × List Bytes}
    (h : tb ∈ btreeUpdate t b m) : tb ∈ m ∨ tb = (t, b) := by
  induction m with
  | nil => simp [btreeUpdate] at h
  | cons hd tl ih =>
    obtain ⟨t₀, b₀⟩ := hd
    simp only [btreeUpdate] at h
    by_cases ht : t₀ = t
    · rw [if_pos ht] at h
      rcases List.mem_cons.mp h with h1 | h2
      · exact Or.inr (ht ▸ h1)
      · exact Or.inl (List.mem_cons_of_mem _ h2)
    · rw [if_neg ht] at h
      rcases List.mem_cons.mp h with h1 | h2
      · exact Or.inl (h1 ▸ List.mem_cons_self _ _)
      · rcases ih h2 with h3 | h3
        · exact Or.inl (List.mem_cons_of_mem _ h3)
        · exact Or.inr h3

theorem mem_btreeInsertNew {m : BucketMap} {t : Nat} {b : List Bytes} {tb : Nat × List Bytes}
    (h : tb ∈ btreeInsertNew t b m) : tb ∈ m ∨ tb = (t, b) := by
  induction m with
  | nil => simpa [btreeInsertNew, or_comm] using h
  | cons hd tl ih =>
    obtain ⟨t₀, b₀⟩ := hd
    simp only [btreeInsertNew] at h
    by_cases ht : t < t₀
    · rw [if_pos ht] at h
      rcases List.mem_cons.mp h with h1 | h2
      · exact Or.inr h1
      · exact Or.inl h2
    · rw [if_neg ht] at h
      rcases List.mem_cons.mp h with h1 | h2
      · exact Or.inl (h1 ▸ List.mem_cons_self _ _)
      · rcases ih h2 with h3 | h3
        · exact Or.inl (List.mem_cons_of_mem _ h3)
        · exact Or.inr h3

theorem btreeGet_mem {m : BucketMap} {t : Nat} {b : List Bytes}
    (h : btreeGet m t = some b) : (t, b) ∈ m := by
  induction m with
  | nil => simp [btreeGet] at h
  | cons hd tl ih =>
    obtain ⟨t₀, b₀⟩ := hd
    simp only [btreeGet] at h
    by_cases ht : t₀ = t
    · rw [if_pos ht] at h
      injection h with h'
      exact ht ▸ h' ▸ List.mem_cons_self _ _
    · exact List.mem_cons_of_mem _ (ih (by simpa [if_neg ht] using h))

theorem btreeRemove_btreeUpdate (t : Nat) (b : List Bytes) (m : BucketMap) :
    btreeRemove t (btreeUpdate t b m) = btreeRemove t m := by
  induction m with
  | nil => rfl
  | cons hd tl ih =>
    obtain ⟨t₀, b₀⟩ := hd
    simp only [btreeUpdate, btreeRemove]
    by_cases ht : t₀ = t
    · simp [if_pos ht, btreeRemove]
    · simp [if_neg ht, btreeRemove, ih]

theorem btreeUpdate_btreeUpdate (t : Nat) (b b' : List Bytes) (m : BucketMap) :
    btreeUpdate t b' (btreeUpdate t b m) = btreeUpdate t b' m := by
  induction m with
  | nil => rfl
  | cons hd tl ih =>
    obtain ⟨t₀, b₀⟩ := hd
    simp only [btreeUpdate]
    by_cases ht : t₀ = t
    · simp [if_pos ht, btreeUpdate]
    · simp [if_neg ht, btreeUpdate, ih]

theorem btreeRemove_btreeInsertNew {m : BucketMap} {t : Nat} (b : List Bytes)
    (h : btreeGet m t = none) : btreeRemove t (btreeInsertNew t b m) = m := by
  induction m with
  | nil => simp [btreeInsertNew, btreeRemove]
  | cons hd tl ih =>
    obtain ⟨t₀, b₀⟩ := hd
    simp only [btreeGet] at h
    by_cases ht : t₀ = t
    · simp [if_pos ht] at h
    · simp only [if_neg ht] at h
      simp only [btreeInsertNew]
      by_cases hlt : t < t₀
      · simp [if_pos hlt, btreeRemove, ht, ih h]
      · simp [if_neg hlt, btreeRemove, ht, ih h]

theorem btreeGet_btreeUpdate {m : BucketMap} {t : Nat} {c : List Bytes} (b : List Bytes)
    (h : btreeGet m t = some c) : btreeGet (btreeUpdate t b m) t = some b := by
  induction m with
  | nil => simp [btreeGet] at h
  | cons hd tl ih =>
    obtain ⟨t₀, b₀⟩ := hd
    simp only [btreeGet] at h
    simp only [btreeUpdate]
    by_cases ht : t₀ = t
    · simp [if_pos ht, btreeGet]
    · simp only [if_neg ht] at h
      simp [if_neg ht, btreeGet, ih h]

theorem btreeGet_btreeInsertNew {m : BucketMap} {t : Nat} (b : List Bytes)
    (h : btreeGet m t = none) : btreeGet (btreeInsertNew t b m) t = some b := by
  induction m with
  | nil => simp [btreeInsertNew, btreeGet]
  | cons hd tl ih =>
    obtain ⟨t₀, b₀⟩ := hd
    simp only [btreeGet] at h
    by_cases ht : t₀ = t
    · simp [if_pos ht] at h
    · simp only [if_neg ht] at h
      simp only [btreeInsertNew]
      by_cases hlt : t < t₀
      · simp [if_pos hlt, btreeGet, ht]
      · simp [if_neg hlt, btreeGet, ht, ih h]

theorem notMem_setRemove (k : Bytes) (s : List Bytes) : k ∉ setRemove k s := by
  intro h
  simpa using (List.mem_filter.mp h).2

theorem setRemove_subset {k k' : Bytes} {s : List Bytes} (h : k ∈ setRemove k' s) : k ∈ s :=
  (List.mem_filter.mp h).1

theorem notMem_fst_of_nodup_btreeRemove {m : BucketMap} {t : Nat} {tb : Nat × List Bytes}
    (hnd : (m.map Prod.fst).Nodup) (hm : t ∈ m.map Prod.fst)
    (h : tb ∈ btreeRemove t m) : tb.1 ≠ t := by
  induction m with
  | nil => simp [btreeRemove] at h
  | cons hd tl ih =>
    obtain ⟨t₀, b₀⟩ := hd
    simp only [List.map_cons, List.nodup_cons] at hnd
    simp only [List.map_cons, List.mem_cons] at hm
    simp only [btreeRemove] at h
    by_cases ht : t₀ = t
    · rw [if_pos ht] at h
      subst ht
      intro hbad
      exact hnd.1 (hbad ▸ List.mem_map.mpr ⟨tb, h, rfl⟩)
    · rw [if_neg ht] at h
      rcases List.mem_cons.mp h with h1 | h2
      · exact h1 ▸ ht
      · have hm' : t ∈ tl.map Prod.fst := by
          rcases hm with h3 | h3
          · exact absurd h3.symm ht
          · exact h3
        exact ih hnd.2 hm' h2

theorem mem_btreeUpdate_nodup {m : BucketMap} {t : Nat} {b : List Bytes}
    {tb : Nat × List Bytes}
    (hnd : (m.map Prod.fst).Nodup) (h : tb ∈ btreeUpdate t b m) :
    (tb ∈ m ∧ tb.1 ≠ t) ∨ tb = (t, b) := by
  induction m with
  | nil => simp [btreeUpdate] at h
  | cons hd tl ih =>
    obtain ⟨t₀, b₀⟩ := hd
    simp only [List.map_cons, List.nodup_cons] at hnd
    simp only [btreeUpdate] at h
    by_cases ht : t₀ = t
    · subst ht
      rw [if_pos rfl] at h
      rcases List.mem_cons.mp h with h1 | h2
      · exact Or.inr h1
      · refine Or.inl ⟨List.mem_cons_of_mem _ h2, fun hbad => ?_⟩
        exact hnd.1 (hbad ▸ List.mem_map.mpr ⟨tb, h2, rfl⟩)
    · rw [if_neg ht] at h
      rcases List.mem_cons.mp h with h1 | h2
      · exact Or.inl ⟨h1 ▸ List.mem_cons_self _ _, h1 ▸ ht⟩
      · rcases ih hnd.2 h2 with ⟨h3, h4⟩ | h3
        · exact Or.inl ⟨List.mem_cons_of_mem _ h3, h4⟩
        · exact Or.inr h3

/-! ### Auxiliary-index preservation and removal lemmas -/

theorem bucketsFreeOf_btreeRemove {m : BucketMap} {k : Bytes} (t : Nat)
    (hf : bucketsFreeOf m k) : bucketsFreeOf (btreeRemove t m) k :=
  fun tb htb => hf tb (mem_btreeRemove htb)

theorem bucketsFreeOf_btreeUpdate_setRemove {m : BucketMap} {k k' : Bytes} {t : Nat}
    {bucket : List Bytes} (hf : bucketsFreeOf m k) (hget : btreeGet m t = some bucket) :
    bucketsFreeOf (btreeUpdate t (setRemove k' bucket) m) k := by
  intro tb htb hk
  rcases mem_btreeUpdate htb with h1 | h1
  · exact hf tb h1 hk
  · exact hf (t, bucket) (btreeGet_mem hget) (setRemove_subset (h1 ▸ hk))

/-- A removal step (`remove_from_map_by_time` or the expiration half of
`AuxMaps::remove`) never introduces a key into a bucket map. -/
theorem bucketsFreeOf_removeStep {m : BucketMap} {k k' : Bytes} {t : Nat}
    {bucket : List Bytes} (hf : bucketsFreeOf m k) (hget : btreeGet m t = some bucket) :
    bucketsFreeOf
      (if bucket.length = 1 then btreeRemove t m else btreeUpdate t (setRemove k' bucket) m) k := by
  by_cases hl : bucket.length = 1
  · rw [if_pos hl]; exact bucketsFreeOf_btreeRemove t hf
  · rw [if_neg hl]; exact bucketsFreeOf_btreeUpdate_setRemove hf hget

theorem remove_from_map_by_time_freeOf {a : AuxMaps} {k k' : Bytes} {t : Nat} {a' : AuxMaps}
    (hf : bucketsFreeOf a.mapByTime k)
    (h : a.remove_from_map_by_time k' t = some a') :
    bucketsFreeOf a'.mapByTime k ∧ a'.mapByExpiration = a.mapByExpiration := by
  unfold AuxMaps.remove_from_map_by_time at h
  split at h
  · exact absurd h (by simp)
  · next bucket hget =>
    split at h
    · injection h with h'
      subst h'
      exact ⟨bucketsFreeOf_btreeRemove t hf, rfl⟩
    · injection h with h'
      subst h'
      exact ⟨bucketsFreeOf_btreeUpdate_setRemove hf hget, rfl⟩

theorem remove_exp_step_freeOf {a : AuxMaps} {k k' : Bytes} {ex : Option Nat} {a1 : AuxMaps}
    (hf : bucketsFreeOf a.mapByExpiration k)
    (h : a.remove_exp_step k' ex = some a1) :
    bucketsFreeOf a1.mapByExpiration k ∧ a1.mapByTime = a.mapByTime := by
  unfold AuxMaps.remove_exp_step at h
  split at h
  · next e =>
    split at h
    · exact absurd h (by simp)
    · next bucket hget =>
      split at h
      · injection h with h'
        subst h'
        exact ⟨bucketsFreeOf_btreeRemove e hf, rfl⟩
      · injection h with h'
        subst h'
        exact ⟨bucketsFreeOf_btreeUpdate_setRemove hf hget, rfl⟩
  · injection h with h'
    subst h'
    exact ⟨hf, rfl⟩

theorem auxRemove_freeOf {a : AuxMaps} {k k' : Bytes} {ex : Option Nat} {lat : Nat}
    {lru : Bool} {a' : AuxMaps}
    (hf : auxFreeOf a k) (h : AuxMaps.remove a k' ex lat lru = some a') :
    auxFreeOf a' k := by
  unfold AuxMaps.remove at h
  split at h
  · exact absurd h (by simp)
  · next a1 hstep =>
    obtain ⟨he1, ht1⟩ := remove_exp_step_freeOf hf.2 hstep
    split at h
    · obtain ⟨ht2, he2⟩ := remove_from_map_by_time_freeOf (ht1 ▸ hf.1) h
      exact ⟨ht2, he2 ▸ he1⟩
    · injection h with h'
      subst h'
      exact ⟨ht1 ▸ hf.1, he1⟩

/-- A removal step eliminates every occurrence of the removed key from a
bucket map, provided the key occurred only under the stated time and bucket
times are unambiguous. -/
theorem bucketKill {m : BucketMap} {k : Bytes} {t : Nat} {bucket : List Bytes}
    (hnd : (m.map Prod.fst).Nodup)
    (hocc : ∀ tb ∈ m, k ∈ tb.2 → tb.1 = t)
    (hget : btreeGet m t = some bucket) :
    bucketsFreeOf (btreeRemove t m) k ∧
      bucketsFreeOf (btreeUpdate t (setRemove k bucket) m) k := by
  have hmem : t ∈ m.map Prod.fst := List.mem_map.mpr ⟨(t, bucket), btreeGet_mem hget, rfl⟩
  constructor
  · intro tb htb hk
    exact notMem_fst_of_nodup_btreeRemove hnd hmem htb (hocc tb (mem_btreeRemove htb) hk)
  · intro tb htb hk
    rcases mem_btreeUpdate_nodup hnd htb with ⟨h1, h2⟩ | h1
    · exact h2 (hocc tb h1 hk)
    · refine notMem_setRemove k bucket ?_
      rw [h1] at hk
      exact hk

theorem remove_from_map_by_time_kills {a : AuxMaps} {k : Bytes} {t : Nat} {a' : AuxMaps}
    (hnd : (a.mapByTime.map Prod.fst).Nodup)
    (hocc : ∀ tb ∈ a.mapByTime, k ∈ tb.2 → tb.1 = t)
    (h : a.remove_from_map_by_time k t = some a') :
    bucketsFreeOf a'.mapByTime k ∧ a'.mapByExpiration = a.mapByExpiration := by
  unfold AuxMaps.remove_from_map_by_time at h
  split at h
  · exact absurd h (by simp)
  · next bucket hget =>
    obtain ⟨hkill1, hkill2⟩ := bucketKill hnd hocc hget
    split at h
    · injection h with h'
      subst h'
      exact ⟨hkill1, rfl⟩
    · injection h with h'
      subst h'
      exact ⟨hkill2, rfl⟩

theorem remove_exp_step_kills {a : AuxMaps} {k : Bytes} {ex : Option Nat} {a1 : AuxMaps}
    (hexp : ∀ tb ∈ a.mapByExpiration, k ∈ tb.2 → ex = some tb.1)
    (hndE : (a.mapByExpiration.map Prod.fst).Nodup)
    (h : a.remove_exp_step k ex = some a1) :
    bucketsFreeOf a1.mapByExpiration k ∧ a1.mapByTime = a.mapByTime := by
  unfold AuxMaps.remove_exp_step at h
  split at h
  · next e =>
    have hocc : ∀ tb ∈ a.mapByExpiration, k ∈ tb.2 → tb.1 = e := by
      intro tb htb hk
      have h' := hexp tb htb hk
      injection h' with h''
      exact h''.symm
    split at h
    · exact absurd h (by simp)
    · next bucket hget =>
      obtain ⟨hkill1, hkill2⟩ := bucketKill hndE hocc hget
      split at h
      · injection h with h'
        subst h'
        exact ⟨hkill1, rfl⟩
      · injection h with h'
        subst h'
        exact ⟨hkill2, rfl⟩
  · injection h with h'
    subst h'
    refine ⟨fun tb htb hk => ?_, rfl⟩
    exact Option.noConfusion (hexp tb htb hk)

/-- `AuxMaps::remove` of a key whose index occurrences match its stored
value eliminates the key from both indexes. -/
theorem auxRemove_kills {a : AuxMaps} {k : Bytes} {ex : Option Nat} {lat : Nat}
    {lru : Bool} {a' : AuxMaps}
    (hexp : ∀ tb ∈ a.mapByExpiration, k ∈ tb.2 → ex = some tb.1)
    (hndE : (a.mapByExpiration.map Prod.fst).Nodup)
    (htime : if lru then
        (∀ tb ∈ a.mapByTime, k ∈ tb.2 → tb.1 = lat) ∧
          (a.mapByTime.map Prod.fst).Nodup
      else bucketsFreeOf a.mapByTime k)
    (h : AuxMaps.remove a k ex lat lru = some a') :
    auxFreeOf a' k := by
  unfold AuxMaps.remove at h
  split at h
  · exact absurd h (by simp)
  · next a1 hstep =>
    obtain ⟨he1, ht1⟩ := remove_exp_step_kills hexp hndE hstep
    split at h
    · next hlru =>
      rw [if_pos hlru] at htime
      obtain ⟨ht2, he2⟩ :=
        remove_from_map_by_time_kills (ht1 ▸ htime.2) (ht1 ▸ htime.1) h
      exact ⟨ht2, he2 ▸ he1⟩
    · next hlru =>
      rw [if_neg hlru] at htime
      injection h with h'
      subst h'
      exact ⟨ht1 ▸ htime, he1⟩

/-! ### Preservation lemmas for removal-based shard operations -/

theorem Pres.refl (s : CommonMaps) : Pres s s := ⟨rfl, rfl, le_refl _⟩

theorem Pres.trans {s₁ s₂ s₃ : CommonMaps} (h₁ : Pres s₁ s₂) (h₂ : Pres s₂ s₃) : Pres s₁ s₃ :=
  ⟨h₂.1.trans h₁.1, h₂.2.1.trans h₁.2.1, h₂.2.2.trans h₁.2.2⟩

theorem removekey_pres {s : CommonMaps} {k : Bytes} {s' : CommonMaps} {n : Int}
    (h : s.removekey k = some (s', n)) : Pres s s' := by
  unfold CommonMaps.removekey at h
  split at h
  · next value map' hrem =>
    split at h
    · exact absurd h (by simp)
    · injection h with h'
      injection h' with h1 h2
      subst h1
      exact ⟨rfl, rfl, Nat.sub_le _ _⟩
  · injection h with h'
    injection h' with h1 h2
    subst h1
    exact Pres.refl s

theorem removekey_keyClean {s : CommonMaps} {k k' : Bytes} {s' : CommonMaps} {n : Int}
    (hc : KeyClean s k) (h : s.removekey k' = some (s', n)) : KeyClean s' k := by
  unfold CommonMaps.removekey at h
  split at h
  · next value map' hrem =>
    split at h
    · exact absurd h (by simp)
    · next aux' haux =>
      injection h with h'
      injection h' with h1 h2
      subst h1
      exact ⟨mapGet_none_of_removeEntry hc.1 hrem, auxRemove_freeOf hc.2 haux⟩
  · injection h with h'
    injection h' with h1 h2
    subst h1
    exact hc

theorem remove_all_pres {keys : List Bytes} {s s' : CommonMaps}
    (h : s.remove_all keys = some s') : Pres s s' := by
  induction keys generalizing s with
  | nil =>
    unfold CommonMaps.remove_all at h
    injection h with h'
    subst h'
    exact Pres.refl _
  | cons k rest ih =>
    unfold CommonMaps.remove_all at h
    split at h
    · exact absurd h (by simp)
    · next s₁ m hrk => exact (removekey_pres hrk).trans (ih h)

theorem remove_all_keyClean {keys : List Bytes} {s s' : CommonMaps} {k : Bytes}
    (hc : KeyClean s k) (h : s.remove_all keys = some s') : KeyClean s' k := by
  induction keys generalizing s with
  | nil =>
    unfold CommonMaps.remove_all at h
    injection h with h'
    subst h'
    exact hc
  | cons k₁ rest ih =>
    unfold CommonMaps.remove_all at h
    split at h
    · exact absurd h (by simp)
    · next s₁ m hrk => exact ih (removekey_keyClean hc hrk) h

theorem removekeys_go_pres {keys : List Bytes} {s s' : CommonMaps} {n n' : Int}
    (h : s.removekeys_go keys n = some (s', n')) : Pres s s' := by
  induction keys generalizing s n with
  | nil =>
    unfold CommonMaps.removekeys_go at h
    injection h with h'
    injection h' with h1 h2
    subst h1
    exact Pres.refl _
  | cons k rest ih =>
    unfold CommonMaps.removekeys_go at h
    split at h
    · exact absurd h (by simp)
    · next s₁ m hrk => exact (removekey_pres hrk).trans (ih h)

theorem removekeys_go_keyClean {keys : List Bytes} {s s' : CommonMaps} {k : Bytes} {n n' : Int}
    (hc : KeyClean s k) (h : s.removekeys_go keys n = some (s', n')) : KeyClean s' k := by
  induction keys generalizing s n with
  | nil =>
    unfold CommonMaps.removekeys_go at h
    injection h with h'
    injection h' with h1 h2
    subst h1
    exact hc
  | cons k₁ rest ih =>
    unfold CommonMaps.removekeys_go at h
    split at h
    · exact absurd h (by simp)
    · next s₁ m hrk => exact ih (removekey_keyClean hc hrk) h

theorem sweep_pres {s s' : CommonMaps} {now : Nat}
    (h : s.remove_expired_sweep now = some s') : Pres s s' :=
  remove_all_pres h

theorem sweep_keyClean {s s' : CommonMaps} {k : Bytes} {now : Nat}
    (hc : KeyClean s k) (h : s.remove_expired_sweep now = some s') : KeyClean s' k :=
  remove_all_keyClean hc h

theorem lruLoop_ne_overBudget {fuel : Nat} {s t : CommonMaps} :
    CommonMaps.lruLoop fuel s ≠ .overBudget t := by
  induction fuel generalizing s with
  | zero => simp [CommonMaps.lruLoop]
  | succ fuel ih =>
    unfold CommonMaps.lruLoop
    split
    · split
      · simp
      · split
        · simp
        · exact ih
    · simp

theorem lruLoop_pres {fuel : Nat} {s t : CommonMaps}
    (h : CommonMaps.lruLoop fuel s = .ok t) : Pres s t := by
  induction fuel generalizing s with
  | zero => simp [CommonMaps.lruLoop] at h
  | succ fuel ih =>
    unfold CommonMaps.lruLoop at h
    split at h
    · split at h
      · simp at h
      · split at h
        · simp at h
        · next s₁ m hrks =>
          exact (removekeys_go_pres hrks).trans (ih h)
    · injection h with h'
      subst h'
      exact Pres.refl _

theorem lruLoop_keyClean {fuel : Nat} {s t : CommonMaps} {k : Bytes}
    (hc : KeyClean s k) (h : CommonMaps.lruLoop fuel s = .ok t) : KeyClean t k := by
  induction fuel generalizing s with
  | zero => simp [CommonMaps.lruLoop] at h
  | succ fuel ih =>
    unfold CommonMaps.lruLoop at h
    split at h
    · split at h
      · simp at h
      · split at h
        · simp at h
        · next s₁ m hrks =>
          exact ih (removekeys_go_keyClean hc hrks) h
    · injection h with h'
      subst h'
      exact hc

theorem cleanup_ok_pres {s t : CommonMaps} {now : Nat}
    (h : s.cleanup now = .ok t) : Pres s t := by
  unfold CommonMaps.cleanup at h
  split at h
  · split at h
    · simp at h
    · next s₁ hsweep =>
      split at h
      · exact (sweep_pres hsweep).trans (lruLoop_pres h)
      · split at h
        · simp at h
        · injection h with h'
          subst h'
          exact sweep_pres hsweep
  · injection h with h'
    subst h'
    exact Pres.refl _

theorem cleanup_ok_keyClean {s t : CommonMaps} {k : Bytes} {now : Nat}
    (hc : KeyClean s k) (h : s.cleanup now = .ok t) : KeyClean t k := by
  unfold CommonMaps.cleanup at h
  split at h
  · split at h
    · simp at h
    · next s₁ hsweep =>
      split at h
      · exact lruLoop_keyClean (sweep_keyClean hc hsweep) h
      · split at h
        · simp at h
        · injection h with h'
          subst h'
          exact sweep_keyClean hc hsweep
  · injection h with h'
    subst h'
    exact hc

/-- `cleanup` reports over-budget exactly via the non-LRU branch; the state
it hands back is the swept state. -/
theorem cleanup_overBudget_iff {s t : CommonMaps} {now : Nat} :
    s.cleanup now = .overBudget t ↔
      (s.maxMemory ≤ s.currentMemory ∧ s.remove_expired_sweep now = some t ∧
        t.cleanupUsingLru = false ∧ t.maxMemory ≤ t.currentMemory) := by
  constructor
  · intro h
    unfold CommonMaps.cleanup at h
    split at h
    · next hover =>
      split at h
      · simp at h
      · next s₁ hsweep =>
        split at h
        · exact absurd h lruLoop_ne_overBudget
        · next hlru =>
          split at h
          · next hover2 =>
            injection h with h'
            subst h'
            exact ⟨hover, hsweep, Bool.not_eq_true _ ▸ hlru, hover2⟩
          · simp at h
    · simp at h
  · rintro ⟨hover, hsweep, hlru, hover2⟩
    unfold CommonMaps.cleanup
    rw [if_pos hover, hsweep]
    simp only [hlru, Bool.false_eq_true, if_false, if_pos hover2]

/-! ### Claim C4 — accounted record size -/

theorem calculate_map_size_go (m : List (Bytes × Bytes)) :
    ∀ acc : Nat, m.foldl (fun s kv => s + kv.1.length + kv.2.length) acc =
      acc + (m.map (fun fv => fv.1.length + fv.2.length)).sum := by
  induction m with
  | nil => intro acc; simp
  | cons hd tl ih =>
    intro acc
    simp only [List.foldl_cons, List.map_cons, List.sum_cons, ih]
    omega

/-- C4: the accounted record size is `3·key.len + value.size() + 16`, where
an `Int` value accounts 8 bytes, a `Str` value its byte length, and a `Hash`
value the sum over its fields of `field.len + value.len`. -/
theorem record_size_formula :
    (∀ keyLen valueSize : Nat,
      calculate_record_size keyLen valueSize = 3 * keyLen + valueSize + 16) ∧
    (∀ i : Int, (ValueHolder.intValue i).size = 8) ∧
    (∀ s : Bytes, (ValueHolder.stringValue s).size = s.length) ∧
    (∀ m : List (Bytes × Bytes),
      (ValueHolder.hashMapValue m).size = (m.map (fun fv => fv.1.length + fv.2.length)).sum) := by
  refine ⟨fun _ _ => rfl, fun _ => rfl, fun _ => rfl, fun m => ?_⟩
  show calculate_map_size m = _
  simpa using calculate_map_size_go m 0

/-! ### Claim C1 — memory accounting invariant (violated by `hset` merge) -/

/-- C1 (code-bug evidence): after `HSET a b c` executed twice, each
returning success, `current_memory` is 42 while the sum of
`record_size(key.len, value.size())` over the primary map is 21 — the merge
branch of `hset` never rolls back the optimistically added record size, so
the spec's accounting invariant fails. -/
theorem hset_merge_breaks_memory_invariant :
    (outcomeValue afterTwoHsets = some 0) ∧
    ((outcomeState afterTwoHsets).map (fun s => (s.currentMemory, memSum s.map)) =
      some (42, 21)) ∧
    (42 : Nat) ≠ 21 := by
  refine ⟨by decide, by decide, by decide⟩

/-! ### Claim C9 — hash selectors -/

theorem xorFold_lt (key : Bytes) :
    ∀ a : Nat, a < 256 → key.foldl (fun a c => Nat.xor a (c % 256)) a < 256 := by
  induction key with
  | nil => intro a ha; simpa using ha
  | cons c rest ih =>
    intro a ha
    simp only [List.foldl_cons]
    refine ih _ ?_
    have h1 : a < 2 ^ 8 := by simpa using ha
    have h2 : c % 256 < 2 ^ 8 := by
      have := Nat.mod_lt c (y := 256) (by norm_num)
      simpa using this
    simpa using Nat.xor_lt_two_pow h1 h2

/-- C9 (counterexample): `create_hash_builder "sum" 0` succeeds, yet
`build_hash` on the resulting selector panics (remainder by zero), so it
returns no index at all — with shard count 0 the claimed containment in
`[0, N)` fails. -/
theorem hash_builder_zero_shards_counterexample :
    create_hash_builder "sum" 0 = .ok (.sumHash 0) ∧
    build_hash (.sumHash 0) [97] = none :=
  ⟨rfl, rfl⟩

/-- C9 (amended): for every shard count `N ≥ 1`, a successfully constructed
selector maps every key into `[0, N)`; `N = 1` always selects the constant
zero selector; `create_hash_builder "xor"` fails (with `InvalidInput`)
exactly when `N > 256`, the `xor` variant serving `2 ≤ N ≤ 255` and
`xor256` serving `N = 256`. -/
theorem hash_builder_range :
    (∀ (name : String) (n : Nat) (b : HashBuilderT), 1 ≤ n →
      create_hash_builder name n = .ok b →
      ∀ key : Bytes, ∃ h : Nat, build_hash b key = some h ∧ h < n) ∧
    (∀ name : String, create_hash_builder name 1 = .ok .zeroHash) ∧
    (∀ n : Nat, (∃ e, create_hash_builder "xor" n = .error e) ↔ 256 < n) ∧
    (∀ n : Nat, 2 ≤ n → n ≤ 255 → create_hash_builder "xor" n = .ok (.xorHash n)) ∧
    create_hash_builder "xor" 256 = .ok .xorHash256 := by
  refine ⟨?_, ?_, ?_, ?_, rfl⟩
  · intro name n b hn hok key
    unfold create_hash_builder at hok
    by_cases h1 : n = 1
    · rw [if_pos h1] at hok
      injection hok with hok'
      subst hok'
      exact ⟨0, rfl, h1 ▸ Nat.zero_lt_one⟩
    · rw [if_neg h1] at hok
      have hn2 : 2 ≤ n := by omega
      have hnz : ¬n = 0 := by omega
      split at hok
      · -- "xor"
        by_cases hlt : n < 256
        · rw [if_pos hlt] at hok
          injection hok with hok'
          subst hok'
          have hb : build_hash (.xorHash n) key =
              some ((key.foldl (fun a c => Nat.xor a (c % 256)) 0) % n) := by
            simp [build_hash, hnz]
          exact ⟨_, hb, Nat.mod_lt _ (by omega)⟩
        · rw [if_neg hlt] at hok
          by_cases h256 : n = 256
          · rw [if_pos h256] at hok
            injection hok with hok'
            subst hok'
            exact ⟨_, rfl, h256 ▸ xorFold_lt key 0 (by norm_num)⟩
          · rw [if_neg h256] at hok
            exact absurd hok (by simp)
      · -- "sum"
        injection hok with hok'
        subst hok'
        have hb : build_hash (.sumHash n) key =
            some ((key.foldl (fun a c => w64 (a + c % 256)) 0) % n) := by
          simp [build_hash, hnz]
        exact ⟨_, hb, Nat.mod_lt _ (by omega)⟩
      · -- "djb2"
        injection hok with hok'
        subst hok'
        have hb : build_hash (.djb2Hash n) key =
            some ((key.foldl (fun a c => w64 (w64 (w64 (a <<< 5) + a) + c % 256)) 5381) % n) := by
          simp [build_hash, hnz]
        exact ⟨_, hb, Nat.mod_lt _ (by omega)⟩
      · -- "sdbm"
        injection hok with hok'
        subst hok'
        have hb : build_hash (.sdbmHash n) key =
            some ((key.foldl
              (fun a c => w64 (w64 (w64 (c % 256 + w64 (a <<< 6)) + w64 (a <<< 16)) +
                (2 ^ 64 - a % 2 ^ 64))) 0) % n) := by
          simp [build_hash, hnz]
        exact ⟨_, hb, Nat.mod_lt _ (by omega)⟩
      · exact absurd hok (by simp)
  · intro name
    unfold create_hash_builder
    rw [if_pos rfl]
  · intro n
    constructor
    · rintro ⟨e, he⟩
      unfold create_hash_builder at he
      by_cases h1 : n = 1
      · rw [if_pos h1] at he; exact absurd he (by simp)
      · rw [if_neg h1] at he
        simp only at he
        by_cases hlt : n < 256
        · rw [if_pos hlt] at he; exact absurd he (by simp)
        · rw [if_neg hlt] at he
          by_cases h256 : n = 256
          · rw [if_pos h256] at he; exact absurd he (by simp)
          · omega
    · intro hgt
      refine ⟨.invalidInput "xor hash builder supports only max_value <= 256", ?_⟩
      unfold create_hash_builder
      rw [if_neg (by omega)]
      simp only
      rw [if_neg (by omega), if_neg (by omega)]
  · intro n h2 h255
    unfold create_hash_builder
    rw [if_neg (by omega)]
    simp only
    rw [if_pos (by omega)]

/-- C9 witness: the amended range theorem applied to the `sum` selector with
three shards at key `"a"`, and the `xor` failure equivalence at `N = 300`. -/
theorem hash_builder_range_witness :
    (∃ h : Nat, build_hash (.sumHash 3) [97] = some h ∧ h < 3) ∧
    (∃ e, create_hash_builder "xor" 300 = .error e) :=
  ⟨hash_builder_range.1 "sum" 3 (.sumHash 3) (by decide) rfl [97],
   hash_builder_range.2.2.1 300 |>.mpr (by decide)⟩

/-! ### Claims C2 and C10 — `set` admission control -/

theorem removekey_mapAbsent {s : CommonMaps} {k k' : Bytes} {s' : CommonMaps} {n : Int}
    (ha : mapGet s.map k = none) (h : s.removekey k' = some (s', n)) :
    mapGet s'.map k = none := by
  unfold CommonMaps.removekey at h
  split at h
  · next value map' hrem =>
    split at h
    · exact absurd h (by simp)
    · injection h with h'
      injection h' with h1 h2
      subst h1
      exact mapGet_none_of_removeEntry ha hrem
  · injection h with h'
    injection h' with h1 h2
    subst h1
    exact ha

theorem remove_all_mapAbsent {keys : List Bytes} {s s' : CommonMaps} {k : Bytes}
    (ha : mapGet s.map k = none) (h : s.remove_all keys = some s') :
    mapGet s'.map k = none := by
  induction keys generalizing s with
  | nil =>
    unfold CommonMaps.remove_all at h
    injection h with h'
    subst h'
    exact ha
  | cons k₁ rest ih =>
    unfold CommonMaps.remove_all at h
    split at h
    · exact absurd h (by simp)
    · next s₁ m hrk => exact ih (removekey_mapAbsent ha hrk) h

theorem sweep_mapAbsent {s s' : CommonMaps} {k : Bytes} {now : Nat}
    (ha : mapGet s.map k = none) (h : s.remove_expired_sweep now = some s') :
    mapGet s'.map k = none :=
  remove_all_mapAbsent ha h

/-- When the sweep leaves an over-budget, LRU-disabled shard, `cleanup`
reports `overBudget` with exactly the swept shard. -/
theorem cleanup_eq_overBudget_of {s1 t : CommonMaps} {now : Nat}
    (hsweep : s1.remove_expired_sweep now = some t)
    (hlru : t.cleanupUsingLru = false)
    (hover : t.maxMemory ≤ t.currentMemory) :
    s1.cleanup now = .overBudget t := by
  have hp := sweep_pres hsweep
  have hover1 : s1.maxMemory ≤ s1.currentMemory := le_trans (hp.1 ▸ hover) hp.2.2
  unfold CommonMaps.cleanup
  rw [if_pos hover1, hsweep]
  simp only [hlru, Bool.false_eq_true, if_false, if_pos hover]

/-- C2: `set` fails with `OutOfMemory` exactly when LRU cleanup is disabled
and, after optimistically adding the record size and sweeping every entry
whose deadline lies below `now`, memory still meets the budget; on that
failure the new size is rolled back (the resulting shard is the swept shard
with the optimistic size subtracted) and the new key was not inserted. -/
theorem set_out_of_memory_iff (s : CommonMaps) (key : Bytes) (vh : ValueHolder)
    (expiry : Option Nat) (now : Nat) (size : Nat)
    (hsize : size = calculate_record_size key.length (Value.new vh now expiry).size) :
    ((∃ s', s.set key vh expiry now = .err s' .outOfMemory) ↔
      (s.cleanupUsingLru = false ∧
        ∃ t, (bumpMem s size).remove_expired_sweep now = some t ∧
          t.maxMemory ≤ t.currentMemory)) ∧
    (∀ s', s.set key vh expiry now = .err s' .outOfMemory →
      ∃ t, (bumpMem s size).remove_expired_sweep now = some t ∧
        s' = { t with currentMemory := t.currentMemory - size } ∧
        (mapGet s.map key = none → mapGet s'.map key = none)) := by
  subst hsize
  have hbump_lru :
      (bumpMem s (calculate_record_size key.length (Value.new vh now expiry).size)).cleanupUsingLru =
        s.cleanupUsingLru := rfl
  constructor
  · constructor
    · rintro ⟨s', hs'⟩
      unfold CommonMaps.set at hs'
      split at hs'
      · exact absurd hs' (by simp)
      · exact absurd hs' (by simp)
      · next s2 hc =>
        obtain ⟨hover, hsweep, hlru, hover2⟩ := cleanup_overBudget_iff.mp hc
        have hp := sweep_pres hsweep
        refine ⟨?_, s2, hsweep, hover2⟩
        rw [← hbump_lru, ← hp.2.1]
        exact hlru
      · next s2 hc =>
        exfalso
        unfold CommonMaps.set_finish at hs'
        split at hs'
        · split at hs'
          · exact absurd hs' (by simp)
          · exact absurd hs' (by simp)
        · exact absurd hs' (by simp)
    · rintro ⟨hlru, t, hsweep, hover⟩
      have hp := sweep_pres hsweep
      have hlf : t.cleanupUsingLru = false := by rw [hp.2.1, hbump_lru]; exact hlru
      have hc := cleanup_eq_overBudget_of hsweep hlf hover
      refine ⟨{ t with currentMemory :=
        t.currentMemory - calculate_record_size key.length (Value.new vh now expiry).size }, ?_⟩
      unfold CommonMaps.set
      rw [hc]
  · intro s' hs'
    unfold CommonMaps.set at hs'
    split at hs'
    · exact absurd hs' (by simp)
    · exact absurd hs' (by simp)
    · next s2 hc =>
      obtain ⟨hover, hsweep, hlru, hover2⟩ := cleanup_overBudget_iff.mp hc
      injection hs' with h1 h2
      refine ⟨s2, hsweep, h1.symm, fun ha => ?_⟩
      have ha' : mapGet (bumpMem s (calculate_record_size key.length
          (Value.new vh now expiry).size)).map key = none := ha
      have h2' : mapGet s2.map key = none := sweep_mapAbsent ha' hsweep
      rw [← h1]
      exact h2'
    · next s2 hc =>
      exfalso
      unfold CommonMaps.set_finish at hs'
      split at hs'
      · split at hs'
        · exact absurd hs' (by simp)
        · exact absurd hs' (by simp)
      · exact absurd hs' (by simp)

/-- C2 witness: on an empty shard with budget 0 and LRU off, `SET "a" ""`
fails with `OutOfMemory`, rolling the accounting back to the swept state. -/
theorem set_out_of_memory_iff_witness :
    (∃ s', CommonMaps.set (build_map 0 false) [97] (.stringValue []) none 0 =
      .err s' .outOfMemory) ∧
    (∃ t, (bumpMem (build_map 0 false) 19).remove_expired_sweep 0 = some t ∧
      build_map 0 false = { t with currentMemory := t.currentMemory - 19 } ∧
      (mapGet (build_map 0 false).map [97] = none →
        mapGet (build_map 0 false).map [97] = none)) :=
  ⟨(set_out_of_memory_iff (build_map 0 false) [97] (.stringValue []) none 0 19 (by decide)).1.mpr
      ⟨by decide, bumpMem (build_map 0 false) 19, by decide, by decide⟩,
   (set_out_of_memory_iff (build_map 0 false) [97] (.stringValue []) none 0 19 (by decide)).2
      (build_map 0 false) (by decide)⟩

theorem lruLoop_succ (fuel : Nat) (s : CommonMaps) :
    CommonMaps.lruLoop (fuel + 1) s =
      (if s.maxMemory ≤ s.currentMemory then
        match s.aux.first_value with
        | none => CleanupResult.panic
        | some bucket =>
          match s.removekeys bucket with
          | none => CleanupResult.panic
          | some (s', _) => CommonMaps.lruLoop fuel s'
      else CleanupResult.ok s) := rfl

theorem merge_error_wrongType {val : Value} {vs : List (Bytes × Bytes)} {e : CacheError}
    (h : val.merge vs = .error e) : e = .wrongType := by
  unfold Value.merge at h
  split at h
  · exact absurd h (by simp)
  all_goals
    injection h with h'
    exact h'.symm

/-- C10: with LRU cleanup enabled, the `OutOfMemory` branch of `set` and
`hset` is unreachable; instead, whenever the optimistic bump plus the expiry
sweep leaves the shard at or over budget while `map_by_time` is empty, the
LRU eviction loop's `first_value` unwraps an empty map and `set` panics. -/
theorem lru_enabled_no_oom_but_panics :
    (∀ (s : CommonMaps) (key : Bytes) (vh : ValueHolder) (expiry : Option Nat) (now : Nat)
        (s' : CommonMaps),
      s.cleanupUsingLru = true → s.set key vh expiry now ≠ .err s' .outOfMemory) ∧
    (∀ (s : CommonMaps) (key : Bytes) (values : List (Bytes × Bytes)) (now : Nat)
        (s' : CommonMaps),
      s.cleanupUsingLru = true → s.hset key values now ≠ .err s' .outOfMemory) ∧
    (∀ (s : CommonMaps) (key : Bytes) (vh : ValueHolder) (expiry : Option Nat) (now : Nat)
        (t : CommonMaps),
      s.cleanupUsingLru = true →
      (bumpMem s (calculate_record_size key.length (Value.new vh now expiry).size)).remove_expired_sweep
        now = some t →
      t.aux.mapByTime = [] →
      t.maxMemory ≤ t.currentMemory →
      s.set key vh expiry now = .panic) := by
  refine ⟨?_, ?_, ?_⟩
  · intro s key vh expiry now s' hlru h
    unfold CommonMaps.set at h
    split at h
    · exact absurd h (by simp)
    · exact absurd h (by simp)
    · next s2 hc =>
      obtain ⟨hover, hsweep, hlf, hover2⟩ := cleanup_overBudget_iff.mp hc
      have hp := sweep_pres hsweep
      rw [hp.2.1] at hlf
      have hsf : s.cleanupUsingLru = false := hlf
      rw [hlru] at hsf
      exact Bool.noConfusion hsf
    · next s2 hc =>
      unfold CommonMaps.set_finish at h
      split at h
      · split at h
        · exact absurd h (by simp)
        · exact absurd h (by simp)
      · exact absurd h (by simp)
  · intro s key values now s' hlru h
    unfold CommonMaps.hset at h
    split at h
    · exact absurd h (by simp)
    · exact absurd h (by simp)
    · next s2 hc =>
      obtain ⟨hover, hsweep, hlf, hover2⟩ := cleanup_overBudget_iff.mp hc
      have hp := sweep_pres hsweep
      rw [hp.2.1] at hlf
      have hsf : s.cleanupUsingLru = false := hlf
      rw [hlru] at hsf
      exact Bool.noConfusion hsf
    · next s2 hc =>
      unfold CommonMaps.hset_finish at h
      split at h
      · split at h
        · next e hmerge =>
          injection h with h1 h2
          have hwt := merge_error_wrongType hmerge
          rw [h2] at hwt
          exact CacheError.noConfusion hwt
        · exact absurd h (by simp)
      · exact absurd h (by simp)
  · intro s key vh expiry now t hlru hsweep hempty hover
    have hp := sweep_pres hsweep
    have htlru : t.cleanupUsingLru = true := by rw [hp.2.1]; exact hlru
    have hover1 :
        (bumpMem s (calculate_record_size key.length (Value.new vh now expiry).size)).maxMemory ≤
          (bumpMem s (calculate_record_size key.length (Value.new vh now expiry).size)).currentMemory :=
      le_trans (hp.1 ▸ hover) hp.2.2
    have hpanic :
        CommonMaps.lruLoop (t.currentMemory + t.aux.mapByTime.length + 1) t = .panic := by
      rw [lruLoop_succ, if_pos hover]
      have hfv : t.aux.first_value = none := by
        unfold AuxMaps.first_value
        rw [hempty]
        rfl
      rw [hfv]
    have hc :
        (bumpMem s (calculate_record_size key.length (Value.new vh now expiry).size)).cleanup now =
          .panic := by
      unfold CommonMaps.cleanup
      rw [if_pos hover1, hsweep]
      show (if t.cleanupUsingLru = true then
          CommonMaps.lruLoop (t.currentMemory + t.aux.mapByTime.length + 1) t
        else if t.maxMemory ≤ t.currentMemory then CleanupResult.overBudget t
        else CleanupResult.ok t) = CleanupResult.panic
      rw [if_pos htlru]
      exact hpanic
    unfold CommonMaps.set
    rw [hc]

/-- C10 witness: inserting one 19-byte record into an empty LRU shard with
budget 10 panics rather than reporting out-of-memory. -/
theorem lru_enabled_no_oom_but_panics_witness :
    CommonMaps.set (build_map 10 true) [97] (.stringValue []) none 0 = .panic :=
  lru_enabled_no_oom_but_panics.2.2 (build_map 10 true) [97] (.stringValue []) none 0
    (bumpMem (build_map 10 true) 19) rfl (by decide) rfl (by decide)

/-! ### Claim C6 — `WrongType` conditions of `hset`/`hdel` -/

theorem merge_error_of_not_hash {val : Value} (vs : List (Bytes × Bytes))
    (h : val.get_hvalue = none) : val.merge vs = .error .wrongType := by
  obtain ⟨vv, lat, ex⟩ := val
  cases vv <;> simp_all [Value.merge, Value.get_hvalue]

theorem not_hash_of_merge_error {val : Value} {vs : List (Bytes × Bytes)} {e : CacheError}
    (h : val.merge vs = .error e) : val.get_hvalue = none := by
  obtain ⟨vv, lat, ex⟩ := val
  cases vv <;> simp_all [Value.merge, Value.get_hvalue]

theorem delete_error_of_not_hash {val : Value} (vs : List Bytes)
    (h : val.get_hvalue = none) : val.delete vs = .error .wrongType := by
  obtain ⟨vv, lat, ex⟩ := val
  cases vv <;> simp_all [Value.delete, Value.get_hvalue]

theorem not_hash_of_delete_error {val : Value} {vs : List Bytes} {e : CacheError}
    (h : val.delete vs = .error e) : val.get_hvalue = none := by
  obtain ⟨vv, lat, ex⟩ := val
  cases vv <;> simp_all [Value.delete, Value.get_hvalue]

/-- C6 (counterexample): after `SET k "" EX-5ms` on a shard with budget 25,
the key exists and holds a non-hash (string) value, yet `HSET k f v` at
`now = 10` succeeds with reply 1 instead of failing with `WrongType`: the
admission cleanup sweeps the expired key away before the variant check. -/
theorem hset_wrong_type_counterexample :
    (c6Setup.map (fun s => (mapGet s.map [107]).map Value.get_hvalue) = some (some none)) ∧
    (c6After.map (fun o => outcomeValue o) = some (some 1)) := by
  refine ⟨by decide, by decide⟩

/-- C6 (amended): `hset` fails with `WrongType` exactly when the key is
still present after the admission cleanup and holds a non-hash value, and
`hdel` exactly when the key is present and holds a non-hash value; no other
condition of these operations raises it, and the error payload is exactly
`-Operation against a key holding the wrong kind of value\r\n`. -/
theorem hset_hdel_wrong_type_iff :
    (∀ (s : CommonMaps) (k : Bytes) (values : List (Bytes × Bytes)) (now : Nat),
      (∃ s', s.hset k values now = .err s' .wrongType) ↔
      (∃ t val,
        (bumpMem s (calculate_record_size k.length (Value.new_hash values now).size)).cleanup now =
          .ok t ∧ mapGet t.map k = some val ∧ val.get_hvalue = none)) ∧
    (∀ (s : CommonMaps) (k : Bytes) (fields : List Bytes),
      (∃ s', s.hdel k fields = .err s' .wrongType) ↔
      (∃ val, mapGet s.map k = some val ∧ val.get_hvalue = none)) ∧
    errorBytes .wrongType =
      strBytes "-Operation against a key holding the wrong kind of value\r\n" := by
  refine ⟨?_, ?_, rfl⟩
  · intro s k values now
    constructor
    · rintro ⟨s', hs'⟩
      unfold CommonMaps.hset at hs'
      split at hs'
      · exact absurd hs' (by simp)
      · exact absurd hs' (by simp)
      · next s2 hc => exact absurd hs' (by simp)
      · next s2 hc =>
        unfold CommonMaps.hset_finish at hs'
        split at hs'
        · next existing hget =>
          split at hs'
          · next e hmerge =>
            injection hs' with h1 h2
            exact ⟨s2, existing, hc, hget, not_hash_of_merge_error hmerge⟩
          · exact absurd hs' (by simp)
        · exact absurd hs' (by simp)
    · rintro ⟨t, val, hc, hget, hvn⟩
      refine ⟨t, ?_⟩
      simp only [CommonMaps.hset, hc, CommonMaps.hset_finish, hget,
        merge_error_of_not_hash values hvn]
  · intro s k fields
    constructor
    · rintro ⟨s', hs'⟩
      unfold CommonMaps.hdel at hs'
      split at hs'
      · next existing hget =>
        split at hs'
        · next e hdelete =>
          injection hs' with h1 h2
          exact ⟨existing, hget, not_hash_of_delete_error hdelete⟩
        · next r hdelete =>
          split at hs'
          · split at hs'
            · exact absurd hs' (by simp)
            · exact absurd hs' (by simp)
          · exact absurd hs' (by simp)
      · exact absurd hs' (by simp)
    · rintro ⟨val, hget, hvn⟩
      refine ⟨s, ?_⟩
      simp only [CommonMaps.hdel, hget, delete_error_of_not_hash fields hvn]

/-- C6 witness: on a shard holding `k ↦ Int 5`, both `HSET k f v` and
`HDEL k f` fail with `WrongType`. -/
theorem hset_hdel_wrong_type_iff_witness :
    (∃ s', CommonMaps.hset c6WitState [107] [([102], [118])] 0 = .err s' .wrongType) ∧
    (∃ s', CommonMaps.hdel c6WitState [107] [[102]] = .err s' .wrongType) :=
  ⟨(hset_hdel_wrong_type_iff.1 c6WitState [107] [([102], [118])] 0).mpr
      ⟨bumpMem c6WitState 21, ⟨.intValue 5, 0, none⟩, by decide, by decide, by decide⟩,
   (hset_hdel_wrong_type_iff.2.1 c6WitState [107] [[102]]).mpr
      ⟨⟨.intValue 5, 0, none⟩, by decide, by decide⟩⟩

/-! ### Claim C8 — SET with TTL options -/

/-- C8 (counterexample): `SET k v EX "-5"` (TTL as a bulk string) is
accepted with `+OK` and stores a TTL of 5000 ms (`expires_at = 5000` at
`now = 0`), because `parse_number_from_vec` never applies its accumulated
sign — the claim would require the TTL `-5 · 1000 ≤ 0` to be rejected as an
invalid command. -/
theorem set_ex_negative_bulk_counterexample :
    (c8Result.map Prod.fst = some okBytes) ∧
    (c8Result.bind (fun p => (mapGet p.2.map [107]).map Value.expiresAt) = some (some 5000)) ∧
    okBytes ≠ invalidCommandBytes := by
  refine ⟨by decide, by decide, by decide⟩

theorem parse_number_from_vec_go_digits {ds : Bytes} (hds : ∀ c ∈ ds, 48 ≤ c ∧ c ≤ 57) :
    ∀ sign result : Int,
      parse_number_from_vec_go ds sign result =
        some (sign, ds.foldl (fun a c => a * 10 + ((c - 48 : Nat) : Int)) result) := by
  induction ds with
  | nil => intro sign result; rfl
  | cons c rest ih =>
    intro sign result
    have hc := hds c (List.mem_cons_self _ _)
    have hrest : ∀ c ∈ rest, 48 ≤ c ∧ c ≤ 57 :=
      fun c hmem => hds c (List.mem_cons_of_mem _ hmem)
    unfold parse_number_from_vec_go
    rw [if_neg (by omega), if_pos hc]
    rw [ih hrest]
    rfl

/-- C8 (amended): an `EX` integer argument of `s` becomes `s·1000` ms and a
`PX` integer argument is passed through; a bulk-string argument of ASCII
digits with an optional leading `-` is accepted, but its sign is discarded
(the digit value is used); a TTL `≤ 0` is rejected as an invalid command
with the shard unmodified, and a TTL `> 0` is handed to the store as the
expiry. -/
theorem run_set_ttl_semantics :
    (∀ ds : Bytes, (∀ c ∈ ds, 48 ≤ c ∧ c ≤ 57) →
      parse_number_from_vec ds = some (digitsVal ds) ∧
      parse_number_from_vec (45 :: ds) = some (digitsVal ds)) ∧
    (∀ (cmd : RespToken) (k val o : Bytes) (ex : Int) (s : CommonMaps) (now : Nat),
      o.length = 2 → (getByte o 1 = 120 ∨ getByte o 1 = 88) →
      (getByte o 0 = 101 ∨ getByte o 0 = 69) →
      run_set_command [cmd, .respBinaryString k, .respBinaryString val,
          .respBinaryString o, .respInteger ex] s now =
        set_with_result k (.stringValue val) (ex * 1000) s now) ∧
    (∀ (cmd : RespToken) (k val o : Bytes) (ex : Int) (s : CommonMaps) (now : Nat),
      o.length = 2 → (getByte o 1 = 120 ∨ getByte o 1 = 88) →
      ¬(getByte o 0 = 101 ∨ getByte o 0 = 69) →
      (getByte o 0 = 112 ∨ getByte o 0 = 80) →
      run_set_command [cmd, .respBinaryString k, .respBinaryString val,
          .respBinaryString o, .respInteger ex] s now =
        set_with_result k (.stringValue val) ex s now) ∧
    (∀ (cmd : RespToken) (k val o ds : Bytes) (s : CommonMaps) (now : Nat),
      o.length = 2 → (getByte o 1 = 120 ∨ getByte o 1 = 88) →
      (getByte o 0 = 101 ∨ getByte o 0 = 69) →
      (∀ c ∈ ds, 48 ≤ c ∧ c ≤ 57) →
      run_set_command [cmd, .respBinaryString k, .respBinaryString val,
          .respBinaryString o, .respBinaryString ds] s now =
        set_with_result k (.stringValue val) (digitsVal ds * 1000) s now) ∧
    (∀ (k : Bytes) (vv : ValueHolder) (e : Int) (s : CommonMaps) (now : Nat),
      (e ≤ 0 → set_with_result k vv e s now = some (invalidCommandBytes, s)) ∧
      (0 < e → set_with_result k vv e s now = surfaceSet (s.set k vv (some e.toNat) now))) := by
  have hdig : ∀ ds : Bytes, (∀ c ∈ ds, 48 ≤ c ∧ c ≤ 57) →
      parse_number_from_vec ds = some (digitsVal ds) := by
    intro ds hds
    unfold parse_number_from_vec digitsVal
    rw [parse_number_from_vec_go_digits hds]
    rfl
  refine ⟨?_, ?_, ?_, ?_, ?_⟩
  · intro ds hds
    refine ⟨hdig ds hds, ?_⟩
    unfold parse_number_from_vec parse_number_from_vec_go
    rw [if_pos rfl]
    show (parse_number_from_vec_go ds (-1) 0).map Prod.snd = _
    rw [parse_number_from_vec_go_digits hds]
    rfl
  · intro cmd k val o ex s now hlen hx he
    simp only [run_set_command]
    rw [if_pos hlen, if_pos hx, if_pos he]
  · intro cmd k val o ex s now hlen hx hne hp
    simp only [run_set_command]
    rw [if_pos hlen, if_pos hx, if_neg hne, if_pos hp]
  · intro cmd k val o ds s now hlen hx he hds
    simp only [run_set_command]
    rw [if_pos hlen, if_pos hx, if_pos he, hdig ds hds]
  · intro k vv e s now
    constructor
    · intro he
      unfold set_with_result
      rw [if_pos he]
    · intro he
      unfold set_with_result
      rw [if_neg (by omega)]

/-- C8 witness: `SET k v EX 2` converts to a 2000 ms TTL, and a TTL of 0 is
rejected with the shard unchanged. -/
theorem run_set_ttl_semantics_witness :
    (run_set_command [.respBinaryString (strBytes "set"), .respBinaryString [107],
        .respBinaryString [118], .respBinaryString (strBytes "ex"), .respInteger 2]
        (build_map 1000 false) 0 =
      set_with_result [107] (.stringValue [118]) 2000 (build_map 1000 false) 0) ∧
    (set_with_result [107] (.stringValue [118]) 0 (build_map 1000 false) 0 =
      some (invalidCommandBytes, build_map 1000 false)) ∧
    (parse_number_from_vec (strBytes "-5") = some (digitsVal (strBytes "5"))) :=
  ⟨run_set_ttl_semantics.2.1 (.respBinaryString (strBytes "set")) [107] [118]
      (strBytes "ex") 2 (build_map 1000 false) 0 (by decide) (by decide) (by decide),
   (run_set_ttl_semantics.2.2.2.2 [107] (.stringValue [118]) 0 (build_map 1000 false) 0).1
      (by decide),
   (run_set_ttl_semantics.1 (strBytes "5") (by decide)).2⟩

/-! ### Claim C5 — `HSET; HDEL` removes the key; `HGETALL` reply -/

/-- C5 (counterexample): `HSET h f v; HDEL h f; HGETALL h` replies with the
null bulk string `$-1\r\n`, not the null array `*-1\r\n` the claim
states — `run_hgetall_command` appends `NULL_STRING` on a missing key. -/
theorem hgetall_null_reply_counterexample :
    (c5Chain.map Prod.fst = some nullStringBytes) ∧ nullStringBytes ≠ nullArrayBytes := by
  refine ⟨by decide, by decide⟩

theorem setInsert_of_notMem {k : Bytes} {s : List Bytes} (h : k ∉ s) :
    setInsert k s = s ++ [k] := by
  unfold setInsert
  rw [if_neg h]

/-- Registering a key in `map_by_time` and then removing it under the same
stamp succeeds and leaves the key in no bucket, provided it started in no
bucket. -/
theorem insert_then_remove_by_time {a : AuxMaps} {k : Bytes} {t : Nat}
    (hf : bucketsFreeOf a.mapByTime k) :
    ∃ a', (a.insert_into_map_by_time k t).remove_from_map_by_time k t = some a' ∧
      bucketsFreeOf a'.mapByTime k ∧ a'.mapByExpiration = a.mapByExpiration := by
  cases hget : btreeGet a.mapByTime t with
  | some bucket =>
    have hkb : k ∉ bucket := hf (t, bucket) (btreeGet_mem hget)
    have hins : a.insert_into_map_by_time k t =
        { a with mapByTime := btreeUpdate t (bucket ++ [k]) a.mapByTime } := by
      simp only [AuxMaps.insert_into_map_by_time, hget, setInsert_of_notMem hkb]
    have hget2 : btreeGet (btreeUpdate t (bucket ++ [k]) a.mapByTime) t = some (bucket ++ [k]) :=
      btreeGet_btreeUpdate _ hget
    rw [hins]
    by_cases hb : bucket = []
    · refine ⟨{ a with mapByTime := btreeRemove t a.mapByTime }, ?_,
        bucketsFreeOf_btreeRemove t hf, rfl⟩
      subst hb
      simp only [List.nil_append] at hget2
      simp only [AuxMaps.remove_from_map_by_time, List.nil_append, hget2,
        List.length_singleton, if_true, btreeRemove_btreeUpdate]
    · refine ⟨{ a with mapByTime := btreeUpdate t (setRemove k (bucket ++ [k])) a.mapByTime },
        ?_, ?_, rfl⟩
      · have hlen : ¬(bucket ++ [k]).length = 1 := by
          intro hc
          apply hb
          have h0 : bucket.length = 0 := by simpa using hc
          exact List.length_eq_zero.mp h0
        simp only [AuxMaps.remove_from_map_by_time, hget2, if_neg hlen,
          btreeUpdate_btreeUpdate]
      · intro tb htb hk
        rcases mem_btreeUpdate htb with h1 | h1
        · exact hf tb h1 hk
        · rw [h1] at hk
          exact notMem_setRemove k (bucket ++ [k]) hk
  | none =>
    have hins : a.insert_into_map_by_time k t =
        { a with mapByTime := btreeInsertNew t [k] a.mapByTime } := by
      simp only [AuxMaps.insert_into_map_by_time, hget]
    have hget2 : btreeGet (btreeInsertNew t [k] a.mapByTime) t = some [k] :=
      btreeGet_btreeInsertNew _ hget
    rw [hins]
    refine ⟨a, ?_, hf, rfl⟩
    simp only [AuxMaps.remove_from_map_by_time, hget2, List.length_singleton, if_true,
      btreeRemove_btreeInsertNew _ hget]

/-- `removekey` computed from a primary-map removal and a successful
auxiliary removal. -/
theorem removekey_total {s' : CommonMaps} {k : Bytes} {w : Value}
    {m' : List (Bytes × Value)} {a' : AuxMaps}
    (hrem : mapRemoveEntry k s'.map = some (w, m'))
    (haux : s'.aux.remove k w.expiresAt w.lastAccessTime s'.cleanupUsingLru = some a') :
    s'.removekey k =
      some ({ s' with
        currentMemory := s'.currentMemory - calculate_record_size k.length w.size,
        map := m', aux := a' }, 1) := by
  unfold CommonMaps.removekey
  simp only [hrem, haux]

/-- A successful `hset` of a completely fresh key takes the insert branch:
the result is the post-cleanup shard with the new hash value appended and
the key registered in the time index when LRU is enabled. -/
theorem hset_fresh_ok {s : CommonMaps} {k : Bytes} {values : List (Bytes × Bytes)}
    {now : Nat} {s1 : CommonMaps} {n : Int}
    (hfresh : mapGet s.map k = none) (hfree : auxFreeOf s.aux k)
    (h : s.hset k values now = .ok s1 n) :
    ∃ t, KeyClean t k ∧
      s1 = { t with
        map := (mapInsertEntry k (Value.new_hash values now) t.map).1,
        aux := t.aux.add k now none t.cleanupUsingLru } ∧
      n = (values.length : Int) := by
  unfold CommonMaps.hset at h
  split at h
  · exact absurd h (by simp)
  · exact absurd h (by simp)
  · exact absurd h (by simp)
  · next s2 hc =>
    have hKC0 : KeyClean
        (bumpMem s (calculate_record_size k.length (Value.new_hash values now).size)) k :=
      ⟨hfresh, hfree⟩
    have hKC : KeyClean s2 k := cleanup_ok_keyClean hKC0 hc
    unfold CommonMaps.hset_finish at h
    split at h
    · next existing hget =>
      rw [hKC.1] at hget
      exact absurd hget (by simp)
    · injection h with h1 h2
      exact ⟨s2, hKC, h1.symm, h2.symm⟩

/-- C5 (amended): for a completely fresh key, a successful
`HSET k f v` followed by `HDEL k f` removes the key from the primary map
and from every auxiliary-index bucket (`hdel` invokes `removekey` when the
remaining field count reaches zero), and a subsequent `HGETALL k` replies
with the null bulk string `$-1\r\n`. -/
theorem hset_hdel_removes_key :
    ∀ (s : CommonMaps) (k f v : Bytes) (now now2 : Nat) (s1 : CommonMaps) (n : Int),
      mapGet s.map k = none → auxFreeOf s.aux k →
      s.hset k [(f, v)] now = .ok s1 n →
      ∃ s2, s1.hdel k [f] = .ok s2 1 ∧
        mapGet s2.map k = none ∧ auxFreeOf s2.aux k ∧
        run_hgetall_on_shard s2 k now2 = some (nullStringBytes, s2) := by
  intro s k f v now now2 s1 n hfresh hfree h
  obtain ⟨t, hKC, hs1, hn⟩ := hset_fresh_ok hfresh hfree h
  have htmap : mapGet t.map k = none := hKC.1
  have hins : mapInsertEntry k (Value.new_hash [(f, v)] now) t.map =
      (t.map ++ [(k, Value.new_hash [(f, v)] now)], none) :=
    mapInsertEntry_absent _ htmap
  have hs1map : s1.map = t.map ++ [(k, Value.new_hash [(f, v)] now)] := by
    rw [hs1, hins]
  have hget1 : mapGet s1.map k = some (Value.new_hash [(f, v)] now) := by
    rw [hs1map]
    exact mapGet_append_self _ htmap
  have hdel_eq : (Value.new_hash [(f, v)] now).delete [f] =
      .ok (⟨.hashMapValue [], now, none⟩, 1, 0) := by
    simp [Value.delete, Value.new_hash, mapRemoveField]
  have hins2 : mapInsertEntry k (⟨.hashMapValue [], now, none⟩ : Value) s1.map =
      (t.map ++ [(k, (⟨.hashMapValue [], now, none⟩ : Value))],
        some (Value.new_hash [(f, v)] now)) := by
    rw [hs1map]
    exact mapInsertEntry_append_self _ _ htmap
  have hs1aux : s1.aux = t.aux.add k now none t.cleanupUsingLru := by rw [hs1]
  have hs1lru : s1.cleanupUsingLru = t.cleanupUsingLru := by rw [hs1]
  have hauxdrop : ∃ a', AuxMaps.remove (t.aux.add k now none t.cleanupUsingLru) k none now
        t.cleanupUsingLru = some a' ∧ auxFreeOf a' k := by
    cases hlru : t.cleanupUsingLru with
    | false =>
      refine ⟨t.aux.add k now none false, ?_, ?_⟩
      · rfl
      · show auxFreeOf t.aux k
        exact hKC.2
    | true =>
      obtain ⟨a', hrm, hfree', hexp'⟩ := insert_then_remove_by_time (t := now) hKC.2.1
      refine ⟨a', hrm, hfree', ?_⟩
      rw [hexp']
      exact hKC.2.2
  obtain ⟨a', haux, hafree⟩ := hauxdrop
  have hrem2 : mapRemoveEntry k
      (t.map ++ [(k, (⟨.hashMapValue [], now, none⟩ : Value))]) =
      some ((⟨.hashMapValue [], now, none⟩ : Value), t.map) :=
    mapRemoveEntry_append_self _ htmap
  have hauxS1 : AuxMaps.remove s1.aux k
      ((⟨.hashMapValue [], now, none⟩ : Value)).expiresAt
      ((⟨.hashMapValue [], now, none⟩ : Value)).lastAccessTime s1.cleanupUsingLru = some a' := by
    rw [hs1aux, hs1lru]
    exact haux
  have hrk := @removekey_total
    { s1 with
      map := (mapInsertEntry k (⟨.hashMapValue [], now, none⟩ : Value) s1.map).1,
      currentMemory := s1.currentMemory - (Value.new_hash [(f, v)] now).size +
        ((⟨.hashMapValue [], now, none⟩ : Value)).size }
    k (⟨.hashMapValue [], now, none⟩ : Value) t.map a'
    (by simp only [hins2]; exact hrem2) hauxS1
  refine ⟨⟨s1.cleanupUsingLru, s1.maxMemory,
    (s1.currentMemory - (Value.new_hash [(f, v)] now).size +
      ((⟨.hashMapValue [], now, none⟩ : Value)).size) -
      calculate_record_size k.length ((⟨.hashMapValue [], now, none⟩ : Value)).size,
    t.map, a'⟩, ?_, ?_, ?_, ?_⟩
  · simp only [CommonMaps.hdel, hget1, hdel_eq]
    simp only [if_true, hrk]
  · exact htmap
  · exact hafree
  · unfold run_hgetall_on_shard CommonMaps.hgetall
    simp only [htmap]

/-- C5 witness: the amended theorem applied to the concrete chain
`HSET h f v; HDEL h f; HGETALL h` on a fresh LRU shard. -/
theorem hset_hdel_removes_key_witness :
    ∃ s2, CommonMaps.hdel c5WitS1 [104] [[102]] = .ok s2 1 ∧
      mapGet s2.map [104] = none ∧ auxFreeOf s2.aux [104] ∧
      run_hgetall_on_shard s2 [104] 0 = some (nullStringBytes, s2) :=
  hset_hdel_removes_key (build_map 1000 true) [104] [102] [118] 0 0 c5WitS1 1
    (by decide) (by simp [auxFreeOf, bucketsFreeOf, build_map, AuxMaps.new]) (by decide)

/-! ### Claim C3 — `get` semantics and expired-key removal -/

theorem get_value_of_string {val : Value} {sv : Bytes} (h : val.value = .stringValue sv) :
    val.get_value = some sv := by
  obtain ⟨vv, lat, ex⟩ := val
  cases h
  rfl

theorem getters_of_int {val : Value} {i : Int} (h : val.value = .intValue i) :
    val.get_value = none ∧ val.get_ivalue = some i := by
  obtain ⟨vv, lat, ex⟩ := val
  cases h
  exact ⟨rfl, rfl⟩

theorem getters_of_collection {val : Value}
    (h : (∃ m, val.value = .hashMapValue m) ∨ (∃ st, val.value = .hashSetValue st)) :
    val.get_value = none ∧ val.get_ivalue = none := by
  obtain ⟨vv, lat, ex⟩ := val
  rcases h with ⟨m, hm⟩ | ⟨st, hst⟩
  · cases hm; exact ⟨rfl, rfl⟩
  · cases hst; exact ⟨rfl, rfl⟩

/-- C3: `get` returns `NotFound` for an absent key; `Expired` without any
mutation for a present key whose deadline (`created_at + ttl`) has passed;
`Found` with the `$` bulk-string encoding for a live `Str` and the `:`
integer encoding for a live `Int`; `WrongValue` for a live `Hash` or `Set`;
and at the dispatcher level a GET of a present-but-expired key replies the
null bulk string and removes the key from the primary map and every
auxiliary-index bucket. -/
theorem get_semantics :
    (∀ (s : CommonMaps) (k : Bytes) (now : Nat),
      mapGet s.map k = none → s.get k now = some (.notFound, [], s)) ∧
    (∀ (vh : ValueHolder) (c ttl : Nat),
      (Value.new vh c (some ttl)).expiresAt = some (c + ttl)) ∧
    (∀ (s : CommonMaps) (k : Bytes) (now : Nat) (val : Value) (e : Nat),
      mapGet s.map k = some val → val.expiresAt = some e → e ≤ now →
      s.get k now = some (.expired, [], s)) ∧
    (∀ (s : CommonMaps) (k : Bytes) (now : Nat) (val : Value) (sv : Bytes)
        (r : GetResult) (out : Bytes) (s' : CommonMaps),
      mapGet s.map k = some val → val.is_expired now = false →
      val.value = .stringValue sv →
      s.get k now = some (r, out, s') →
      r = .found ∧ out = resp_encode_binary_string sv) ∧
    (∀ (s : CommonMaps) (k : Bytes) (now : Nat) (val : Value) (i : Int)
        (r : GetResult) (out : Bytes) (s' : CommonMaps),
      mapGet s.map k = some val → val.is_expired now = false →
      val.value = .intValue i →
      s.get k now = some (r, out, s') →
      r = .found ∧ out = resp_encode_int i) ∧
    (∀ (s : CommonMaps) (k : Bytes) (now : Nat) (val : Value),
      mapGet s.map k = some val → val.is_expired now = false →
      ((∃ m, val.value = .hashMapValue m) ∨ (∃ st, val.value = .hashSetValue st)) →
      s.get k now = some (.wrongValue, [], s)) ∧
    (∀ (s : CommonMaps) (k : Bytes) (now : Nat) (val : Value) (s2 : CommonMaps) (cnt : Int),
      mapGet s.map k = some val → val.is_expired now = true →
      (s.map.map Prod.fst).Nodup →
      s.removekey k = some (s2, cnt) →
      run_get_on_shard s k now = some (nullStringBytes, s2) ∧
      mapGet s2.map k = none ∧
      (keyOnlyInOwnBuckets s k val → auxFreeOf s2.aux k)) := by
  refine ⟨?_, fun _ _ _ => rfl, ?_, ?_, ?_, ?_, ?_⟩
  · intro s k now hnone
    simp only [CommonMaps.get, hnone]
  · intro s k now val e hget he hle
    have hex : val.is_expired now = true := by
      simp [Value.is_expired, he, hle]
    simp only [CommonMaps.get, hget, hex, if_true]
  · intro s k now val sv r out s' hget hexp hval hres
    have hgv := get_value_of_string hval
    simp only [CommonMaps.get, hget, hexp, Bool.false_eq_true, if_false, hgv] at hres
    cases hlru : s.cleanupUsingLru with
    | false =>
      simp only [hlru, Bool.false_eq_true, if_false] at hres
      injection hres with hres'
      injection hres' with h1 hres''
      injection hres'' with h2 h3
      exact ⟨h1.symm, h2.symm⟩
    | true =>
      simp only [hlru, if_true] at hres
      split at hres
      · exact absurd hres (by simp)
      · injection hres with hres'
        injection hres' with h1 hres''
        injection hres'' with h2 h3
        exact ⟨h1.symm, h2.symm⟩
  · intro s k now val i r out s' hget hexp hval hres
    obtain ⟨hgv, hgi⟩ := getters_of_int hval
    simp only [CommonMaps.get, hget, hexp, Bool.false_eq_true, if_false, hgv, hgi] at hres
    cases hlru : s.cleanupUsingLru with
    | false =>
      simp only [hlru, Bool.false_eq_true, if_false] at hres
      injection hres with hres'
      injection hres' with h1 hres''
      injection hres'' with h2 h3
      exact ⟨h1.symm, h2.symm⟩
    | true =>
      simp only [hlru, if_true] at hres
      split at hres
      · exact absurd hres (by simp)
      · injection hres with hres'
        injection hres' with h1 hres''
        injection hres'' with h2 h3
        exact ⟨h1.symm, h2.symm⟩
  · intro s k now val hget hexp hcoll
    obtain ⟨hgv, hgi⟩ := getters_of_collection hcoll
    simp only [CommonMaps.get, hget, hexp, Bool.false_eq_true, if_false, hgv, hgi]
  · intro s k now val s2 cnt hget hexp hnd hrk
    have hgetEq : s.get k now = some (.expired, [], s) := by
      simp only [CommonMaps.get, hget, hexp, if_true]
    have hrun : run_get_on_shard s k now = some (nullStringBytes, s2) := by
      unfold run_get_on_shard
      simp only [hgetEq, hrk]
    refine ⟨hrun, ?_, ?_⟩
    · unfold CommonMaps.removekey at hrk
      split at hrk
      · next value map' hrem =>
        split at hrk
        · exact absurd hrk (by simp)
        · injection hrk with hrk'
          injection hrk' with h1 h2
          rw [← h1]
          exact mapGet_none_removeEntry_nodup hnd hrem
      · next hrem =>
        obtain ⟨m', hm'⟩ := removeEntry_of_mapGet hget
        rw [hm'] at hrem
        exact absurd hrem (by simp)
    · intro hbuckets
      unfold CommonMaps.removekey at hrk
      split at hrk
      · next value map' hrem =>
        have hveq : value = val := by
          have := mapGet_of_removeEntry hrem
          rw [hget] at this
          injection this with h'
          exact h'.symm
        split at hrk
        · exact absurd hrk (by simp)
        · next aux' haux =>
          injection hrk with hrk'
          injection hrk' with h1 h2
          rw [← h1]
          subst hveq
          exact auxRemove_kills hbuckets.1 hbuckets.2.1 hbuckets.2.2 haux
      · next hrem =>
        obtain ⟨m', hm'⟩ := removeEntry_of_mapGet hget
        rw [hm'] at hrem
        exact absurd hrem (by simp)

/-- C3 witness: the semantics theorem applied to concrete shards holding an
absent key, an expired key, a live string, a live integer and a set value,
plus the dispatcher-level removal of the expired key. -/
theorem get_semantics_witness :
    (CommonMaps.get (build_map 5 false) [1] 0 = some (.notFound, [], build_map 5 false)) ∧
    (CommonMaps.get c3ExpState [107] 10 = some (.expired, [], c3ExpState)) ∧
    (GetResult.found = GetResult.found ∧
      resp_encode_binary_string [118] = resp_encode_binary_string [118]) ∧
    (GetResult.found = GetResult.found ∧ resp_encode_int 7 = resp_encode_int 7) ∧
    (CommonMaps.get c3SetState [107] 0 = some (.wrongValue, [], c3SetState)) ∧
    (run_get_on_shard c3ExpState [107] 10 = some (nullStringBytes, build_map 1000 false) ∧
      mapGet (build_map 1000 false).map [107] = none ∧
      auxFreeOf (build_map 1000 false).aux [107]) :=
  ⟨get_semantics.1 (build_map 5 false) [1] 0 (by decide),
   get_semantics.2.2.1 c3ExpState [107] 10 ⟨.stringValue [], 0, some 5⟩ 5
     (by decide) (by decide) (by decide),
   get_semantics.2.2.2.1 c3StrState [107] 0 ⟨.stringValue [118], 0, none⟩ [118] .found
     (resp_encode_binary_string [118]) c3StrState (by decide) (by decide) (by decide) (by decide),
   get_semantics.2.2.2.2.1 c3IntState [107] 0 ⟨.intValue 7, 0, none⟩ 7 .found
     (resp_encode_int 7) c3IntState (by decide) (by decide) (by decide) (by decide),
   get_semantics.2.2.2.2.2.1 c3SetState [107] 0 ⟨.hashSetValue [[1]], 0, none⟩
     (by decide) (by decide) (Or.inr ⟨[[1]], rfl⟩),
   by
     have h := get_semantics.2.2.2.2.2.2 c3ExpState [107] 10 ⟨.stringValue [], 0, some 5⟩
       (build_map 1000 false) 1 (by decide) (by decide) (by decide) (by decide)
     exact ⟨h.1, h.2.1, h.2.2 (by decide)⟩⟩

/-- Every error `parse_number_go` produces is the invalid-command payload. -/
theorem parse_number_go_err (buffer : Bytes) (amt idx : Nat) :
    ∀ fuel newIdx result sign e,
      parse_number_go buffer amt idx fuel newIdx result sign = .error e →
      e = invalidCommandBytes := by
  intro fuel
  induction fuel with
  | zero =>
    intro newIdx result sign e h
    simp only [parse_number_go] at h
    injection h with h
    exact h.symm
  | succ fuel ih =>
    intro newIdx result sign e h
    simp only [parse_number_go] at h
    split at h
    · split at h
      · exact ih _ _ _ _ h
      · split at h
        · exact ih _ _ _ _ h
        · split at h
          · split at h
            · injection h with h
              exact h.symm
            · simp at h
          · injection h with h
            exact h.symm
    · injection h with h
      exact h.symm

/-- Every error `parse_string_go` produces is the invalid-command payload. -/
theorem parse_string_go_err (buffer : Bytes) (amt idx : Nat) :
    ∀ fuel newIdx e,
      parse_string_go buffer amt idx fuel newIdx = .error e →
      e = invalidCommandBytes := by
  intro fuel
  induction fuel with
  | zero =>
    intro newIdx e h
    simp only [parse_string_go] at h
    injection h with h
    exact h.symm
  | succ fuel ih =>
    intro newIdx e h
    simp only [parse_string_go] at h
    split at h
    · split at h
      · simp at h
      · exact ih _ _ h
    · injection h with h
      exact h.symm

/-- Every error `parse_binary_string` produces is the invalid-command payload. -/
theorem parse_binary_string_err (buffer : Bytes) (idx amt : Nat) (e : Bytes)
    (h : parse_binary_string buffer idx amt = .error e) : e = invalidCommandBytes := by
  unfold parse_binary_string at h
  split at h
  next e2 he2 =>
    injection h with h
    subst h
    exact parse_number_go_err buffer amt idx _ _ _ _ _ he2
  next newIdx count heq =>
    split at h
    · simp at h
    · split at h
      · simp at h
      · split at h
        · injection h with h
          exact h.symm
        · split at h
          · injection h with h
            exact h.symm
          · simp at h

/-- Every error the element loop of `parse_array` produces comes from the
element step or is the invalid-command payload. -/
theorem parseArrayItems_err (step : Nat → Except Bytes (Nat × RespToken))
    (hstep : ∀ i e, step i = .error e → e = invalidCommandBytes) :
    ∀ count idx acc e, parseArrayItems step count idx acc = .error e →
      e = invalidCommandBytes := by
  intro count
  induction count with
  | zero =>
    intro idx acc e h
    simp [parseArrayItems] at h
  | succ count ih =>
    intro idx acc e h
    simp only [parseArrayItems] at h
    split at h
    next e2 he2 =>
      injection h with h
      subst h
      exact hstep _ _ he2
    next newIdx tok heq =>
      exact ih _ _ _ h

/-- Every error `parse_token` produces is the invalid-command payload. -/
theorem parseToken_err :
    ∀ fuel buffer idx amt e, parseToken fuel buffer idx amt = .error e →
      e = invalidCommandBytes := by
  intro fuel
  induction fuel with
  | zero =>
    intro buffer idx amt e h
    simp only [parseToken] at h
    injection h with h
    exact h.symm
  | succ fuel ih =>
    intro buffer idx amt e h
    simp only [parseToken] at h
    split at h
    · split at h
      · split at h
        next e2 he2 =>
          injection h with h
          subst h
          exact parse_number_go_err buffer amt (idx + 1) _ _ _ _ _ he2
        next newIdx n heq =>
          split at h
          · simp at h
          · split at h
            · injection h with h
              exact h.symm
            · split at h
              next e2 he2 =>
                injection h with h
                subst h
                exact parseArrayItems_err _ (fun i e2 => ih buffer i amt e2) _ _ _ _ he2
              next finalIdx items heq2 =>
                simp at h
      · split at h
        · exact parse_binary_string_err _ _ _ _ h
        · split at h
          · split at h
            next e2 he2 =>
              injection h with h
              subst h
              exact parse_number_go_err buffer amt (idx + 1) _ _ _ _ _ he2
            next newIdx n heq =>
              simp at h
          · split at h
            next e2 he2 =>
              injection h with h
              subst h
              exact parse_string_go_err buffer amt idx _ _ _ he2
            next newIdx sb heq =>
              simp at h
    · injection h with h
      exact h.symm

/-- Every error the `parse_tokens` loop produces is the invalid-command
payload. -/
theorem parse_tokens_go_err :
    ∀ fuel buffer idx amt acc e, parse_tokens_go fuel buffer idx amt acc = .error e →
      e = invalidCommandBytes := by
  intro fuel
  induction fuel with
  | zero =>
    intro buffer idx amt acc e h
    simp only [parse_tokens_go] at h
    injection h with h
    exact h.symm
  | succ fuel ih =>
    intro buffer idx amt acc e h
    simp only [parse_tokens_go] at h
    split at h
    · split at h
      next e2 he2 =>
        injection h with h
        subst h
        exact parseToken_err _ _ _ _ _ he2
      next newIdx tok heq =>
        exact ih _ _ _ _ _ h
    · split at h
      · simp at h
      · injection h with h
        exact h.symm

/-- C7: for every input buffer the parser either parses the entire buffer
into a token sequence — and the reply is the concatenation of the per-token
replies — or the whole buffer is rejected and the reply is exactly the
payload of `-invalid command` (so no reply is produced for a prefix of
requests that did parse); a bulk-string length that is negative and not -1
is an error, an array length that is negative and not -1 is an error, and a
bulk-string length that exceeds the remaining buffer is an error. -/
theorem resp_parse_all_or_nothing :
    (∀ (run : RespToken → Bytes) (buffer : Bytes) (amt : Nat),
      (∃ tokens, parse_tokens buffer amt = .ok tokens ∧
        resp_parse run buffer amt = tokens.foldl (fun acc t => acc ++ run t) []) ∨
      (parse_tokens buffer amt = .error invalidCommandBytes ∧
        resp_parse run buffer amt = invalidCommandBytes)) ∧
    (∀ (buffer : Bytes) (idx amt newIdx : Nat) (count : Int),
      parse_number buffer idx amt = .ok (newIdx, count) → count < 0 → count ≠ -1 →
      parse_binary_string buffer idx amt = .error invalidCommandBytes) ∧
    (∀ (fuel : Nat) (buffer : Bytes) (idx amt newIdx : Nat) (n : Int),
      idx < amt → getByte buffer idx = 42 →
      parse_number buffer (idx + 1) amt = .ok (newIdx, n) → n < 0 → n ≠ -1 →
      parseToken (fuel + 1) buffer idx amt = .error invalidCommandBytes) ∧
    (∀ (buffer : Bytes) (idx amt newIdx : Nat) (count : Int),
      parse_number buffer idx amt = .ok (newIdx, count) → 0 < count →
      amt < newIdx + count.toNat + 2 →
      parse_binary_string buffer idx amt = .error invalidCommandBytes) := by
  refine ⟨?_, ?_, ?_, ?_⟩
  · intro run buffer amt
    cases heq : parse_tokens buffer amt with
    | ok tokens =>
      exact Or.inl ⟨tokens, rfl, by simp only [resp_parse, heq]⟩
    | error e =>
      have he : e = invalidCommandBytes := parse_tokens_go_err _ _ _ _ _ _ heq
      subst he
      exact Or.inr ⟨rfl, by simp only [resp_parse, heq]⟩
  · intro buffer idx amt newIdx count hnum hneg hne
    unfold parse_binary_string
    rw [hnum]
    simp only
    rw [if_neg hne, if_neg (by omega : ¬count = 0), if_pos hneg]
  · intro fuel buffer idx amt newIdx n hlt hc hnum hneg hne
    simp only [parseToken, if_pos hlt, hc, hnum]
    norm_num
    rw [if_neg hne, if_pos hneg]
  · intro buffer idx amt newIdx count hnum hpos hover
    unfold parse_binary_string
    rw [hnum]
    simp only
    rw [if_neg (by omega : ¬count = -1), if_neg (by omega : ¬count = 0),
      if_neg (by omega : ¬count < 0), if_pos hover]

/-- C7 witness: the bulk string `$-2\r\n`, the array header `*-2\r\n`
and the truncated bulk string `$5\r\nhi` are each rejected with the
invalid-command payload. -/
theorem resp_parse_all_or_nothing_witness :
    (parse_number [36, 45, 50, 13, 10] 1 5 = .ok (5, -2) ∧
      parse_binary_string [36, 45, 50, 13, 10] 1 5 = .error invalidCommandBytes) ∧
    parseToken 1 [42, 45, 50, 13, 10] 0 5 = .error invalidCommandBytes ∧
    parse_binary_string [36, 53, 13, 10, 104, 105] 1 6 = .error invalidCommandBytes :=
  ⟨⟨by rfl, resp_parse_all_or_nothing.2.1 [36, 45, 50, 13, 10] 1 5 5 (-2) (by rfl)
      (by decide) (by decide)⟩,
   resp_parse_all_or_nothing.2.2.1 0 [42, 45, 50, 13, 10] 0 5 5 (-2)
     (by decide) (by decide) (by rfl) (by decide) (by decide),
   resp_parse_all_or_nothing.2.2.2 [36, 53, 13, 10, 104, 105] 1 6 4 5 (by rfl)
     (by decide) (by decide)⟩

end Cache
